import Mathlib

/-!
Verification of the client-side filter/search/sort engine of the LPM-TF
repository (src/js/filters.js, src/unnamed/part_000) together with its data
loaders (src/unnamed/part_001, src/unnamed/part_002).

JavaScript strings are modelled as lists of characters (so that the
split/join/substring operations used by the code are structurally
recursive); JavaScript dynamic values appearing as sort keys are modelled
by the inductive type JSVal.  URL query strings are modelled as ordered
lists of key/value pairs: URLSearchParams percent-encodes keys and values
on toString and decodes them on parsing, so serialisation round-trips
each pair exactly and the pair list is the faithful abstraction.
-/

/-- A JavaScript string, modelled as its list of UTF-16-ish characters. -/
abbrev Str := List Char

/-- Shorthand turning a Lean string literal into the Str model. -/
def lit (s : String) : Str := s.toList

/-- JavaScript String.prototype.toLowerCase, character by character. -/
def toLowerStr (s : Str) : Str := s.map Char.toLower

/-- Whitespace recognised by JavaScript String.prototype.trim (the
characters actually occurring in this code base's data). -/
def isWSpace (c : Char) : Bool := c = ' ' || c = '\t' || c = '\n' || c = '\r'

/-- JavaScript String.prototype.trim. -/
def trimStr (s : Str) : Str :=
  ((s.dropWhile isWSpace).reverse.dropWhile isWSpace).reverse

/-- Does the string begin with the given needle (helper for containsSub). -/
def startsWithB : Str → Str → Bool
  | [], _ => true
  | _ :: _, [] => false
  | a :: as, b :: bs => a = b && startsWithB as bs

/-- JavaScript String.prototype.includes: needle occurs as a contiguous
substring of hay. -/
def containsSub (hay needle : Str) : Bool :=
  startsWithB needle hay ||
    match hay with
    | [] => false
    | _ :: t => containsSub t needle

/-- JavaScript Array.prototype.join with a one-character separator. -/
def joinChar (c : Char) : List Str → Str
  | [] => []
  | [x] => x
  | x :: y :: ys => x ++ c :: joinChar c (y :: ys)

/-- JavaScript String.prototype.split with a one-character separator. -/
def splitOnChar (c : Char) : Str → List Str
  | [] => [[]]
  | x :: xs =>
    match splitOnChar c xs with
    | [] => [[]]
    | y :: ys => if x = c then [] :: y :: ys else (x :: y) :: ys

/-- Numeric value of a list of decimal digit characters. -/
def digitsVal (ds : Str) : Nat := ds.foldl (fun a c => a * 10 + (c.toNat - 48)) 0

/-- JavaScript parseInt on a string: skip leading whitespace, optional
sign, then the maximal run of leading decimal digits; none models NaN.
(The records of this repository only carry decimal integers, so radix
prefixes and exponents are outside the value space.) -/
def parseIntJS (s : Str) : Option Int :=
  match s.dropWhile isWSpace with
  | '-' :: r =>
    let d := r.takeWhile Char.isDigit
    if d = [] then none else some (-(digitsVal d : Int))
  | '+' :: r =>
    let d := r.takeWhile Char.isDigit
    if d = [] then none else some ((digitsVal d : Int))
  | r =>
    let d := r.takeWhile Char.isDigit
    if d = [] then none else some ((digitsVal d : Int))

/-- JavaScript ToNumber on a string (used by relational comparison):
the whole trimmed string must be numeric, the empty string is 0; none
models NaN.  Integer literals only, matching the repository's data. -/
def strToNumJS (s : Str) : Option Int :=
  match trimStr s with
  | [] => some 0
  | '-' :: r => if r ≠ [] && r.all Char.isDigit then some (-(digitsVal r : Int)) else none
  | '+' :: r => if r ≠ [] && r.all Char.isDigit then some ((digitsVal r : Int)) else none
  | r => if r.all Char.isDigit then some ((digitsVal r : Int)) else none

/-- JavaScript String.prototype.replace with a one-character pattern and
empty replacement: removes the first occurrence only. -/
def removeFirst (c : Char) : Str → Str
  | [] => []
  | x :: xs => if x = c then xs else x :: removeFirst c xs

/-- Strict lexicographic comparison of strings by character code, the
semantics of the JavaScript < operator on two strings. -/
def lexLt : Str → Str → Bool
  | [], [] => false
  | [], _ :: _ => true
  | _ :: _, [] => false
  | a :: as, b :: bs => if a < b then true else if b < a then false else lexLt as bs

/-- A JavaScript value as it can appear in a record field or sort key:
a string, an integer number, NaN, a boolean, an array of strings, or
undefined. -/
inductive JSVal where
  | str (s : Str)
  | num (n : Int)
  | nan
  | boolV (b : Bool)
  | arr (l : List Str)
  | undefV
  deriving DecidableEq, Repr

/-- JavaScript truthiness of a value. -/
def jsTruthy : JSVal → Bool
  | .str s => s ≠ []
  | .num n => n ≠ 0
  | .nan => false
  | .boolV b => b
  | .arr _ => true
  | .undefV => false

/-- The JavaScript short-circuit a or-else b. -/
def jsOr (a b : JSVal) : JSVal := if jsTruthy a then a else b

/-- ToPrimitive with number hint, as invoked by the relational operators:
arrays convert to their comma-joined string, other values are already
primitive. -/
def toPrimV : JSVal → JSVal
  | .arr l => .str (joinChar ',' l)
  | v => v

/-- ToNumber on a primitive value; none models NaN. -/
def toNumV : JSVal → Option Int
  | .str s => strToNumJS s
  | .num n => some n
  | .nan => none
  | .boolV b => some (if b then 1 else 0)
  | .arr l => strToNumJS (joinChar ',' l)
  | .undefV => none

/-- Numeric comparison with NaN (none) propagating to false. -/
def optNumLt : Option Int → Option Int → Bool
  | some x, some y => decide (x < y)
  | _, _ => false

/-- The JavaScript < operator: if both operands convert to strings the
comparison is lexicographic, otherwise both are converted to numbers and
any NaN makes the comparison false. -/
def jsLtV (a b : JSVal) : Bool :=
  match toPrimV a, toPrimV b with
  | .str sa, .str sb => lexLt sa sb
  | pa, pb => optNumLt (toNumV pa) (toNumV pb)

/-- Lowercase a value when it is a string, identity otherwise (the
comparators lowercase their operands behind a typeof string test). -/
def lowerV : JSVal → JSVal
  | .str s => .str (toLowerStr s)
  | v => v

/-- A catalog record.  Every field the engine reads is optional: a
missing JSON field is none.  The nested description object of the
FiltersManager data is flattened into descShort/descFull; the FilterSystem
data carries a flat string description.  variableAxes is modelled by its
list of axis names (the code only reads its keys and its truthiness). -/
structure Rec where
  id : Option Str := none
  name : Option Str := none
  nameDisplay : Option Str := none
  title : Option Str := none
  description : Option Str := none
  descShort : Option Str := none
  descFull : Option Str := none
  category : Option Str := none
  typ : Option Str := none
  status : Option Str := none
  styles : Option Int := none
  year : Option Int := none
  price : Option Str := none
  featured : Option Bool := none
  isExternal : Option Bool := none
  features : Option (List Str) := none
  languages : Option (List Str) := none
  variableAxes : Option (List Str) := none
  releaseDate : Option Str := none
  lastUpdated : Option Str := none
  dateCreated : Option Str := none
  deriving DecidableEq, Repr

/-- Lift an optional string field to a JavaScript value. -/
def oStr : Option Str → JSVal
  | some s => .str s
  | none => .undefV

/-- Lift an optional integer field to a JavaScript value. -/
def oNum : Option Int → JSVal
  | some n => .num n
  | none => .undefV

/-- Lift an optional boolean field to a JavaScript value. -/
def oBool : Option Bool → JSVal
  | some b => .boolV b
  | none => .undefV

/-- Lift an optional array field to a JavaScript value. -/
def oArr : Option (List Str) → JSVal
  | some l => .arr l
  | none => .undefV

/-- Dynamic property access item[k] on a record, returning undefined for
any name the record shape does not carry. -/
def dynField (r : Rec) (k : Str) : JSVal :=
  if k = lit "id" then oStr r.id
  else if k = lit "name" then oStr r.name
  else if k = lit "nameDisplay" then oStr r.nameDisplay
  else if k = lit "title" then oStr r.title
  else if k = lit "description" then oStr r.description
  else if k = lit "category" then oStr r.category
  else if k = lit "type" then oStr r.typ
  else if k = lit "status" then oStr r.status
  else if k = lit "styles" then oNum r.styles
  else if k = lit "year" then oNum r.year
  else if k = lit "price" then oStr r.price
  else if k = lit "featured" then oBool r.featured
  else if k = lit "isExternal" then oBool r.isExternal
  else if k = lit "features" then oArr r.features
  else if k = lit "languages" then oArr r.languages
  else if k = lit "variableAxes" then oArr r.variableAxes
  else if k = lit "releaseDate" then oStr r.releaseDate
  else if k = lit "lastUpdated" then oStr r.lastUpdated
  else if k = lit "dateCreated" then oStr r.dateCreated
  else .undefV

/-- Decidable equality for Except values, so that concrete runs of the
fallible operations can be checked by decide. -/
instance {ε α : Type} [DecidableEq ε] [DecidableEq α] : DecidableEq (Except ε α) := fun x y =>
  match x, y with
  | .ok a, .ok b =>
    if h : a = b then .isTrue (by rw [h]) else .isFalse (by simp [h])
  | .error e, .error f =>
    if h : e = f then .isTrue (by rw [h]) else .isFalse (by simp [h])
  | .ok _, .error _ => .isFalse (by simp)
  | .error _, .ok _ => .isFalse (by simp)

/-! ### Association-list helpers

JavaScript objects and Map instances keep keys in insertion order:
setting an existing key updates it in place, setting a new key appends,
and delete removes the entry.  An ordered association list models both. -/

/-- Object/Map assignment: update in place or append. -/
def setAssoc {β : Type} (k : Str) (v : β) : List (Str × β) → List (Str × β)
  | [] => [(k, v)]
  | (k2, v2) :: t => if k2 = k then (k, v) :: t else (k2, v2) :: setAssoc k v t

/-- Object delete / Map.delete. -/
def delAssoc {β : Type} (k : Str) : List (Str × β) → List (Str × β)
  | [] => []
  | (k2, v2) :: t => if k2 = k then delAssoc k t else (k2, v2) :: delAssoc k t

/-- Object read / Map.get. -/
def getAssoc {β : Type} (k : Str) : List (Str × β) → Option β
  | [] => none
  | (k2, v2) :: t => if k2 = k then some v2 else getAssoc k t

/-! ## FilterSystem (src/js/filters.js) -/

/-- The value stored for one dimension of FilterSystem.activeFilters:
setFilter stores a single string, toggleFilter stores an array. -/
inductive FilterValue where
  | single (v : Str)
  | multi (vs : List Str)
  deriving DecidableEq, Repr

/-- The mutable state of a FilterSystem instance (the record collection
this.data is passed separately, as the code never mutates it). -/
structure FSState where
  activeFilters : List (Str × FilterValue) := []
  searchQuery : Str := []
  sortBy : Str := lit "name"
  sortOrder : Str := lit "asc"
  deriving DecidableEq, Repr

/-- A freshly constructed FilterSystem with the constructor defaults
(defaultSort name, defaultOrder asc). -/
def fsInit : FSState := {}

/-- setSearch normalisation: query.toLowerCase().trim(). -/
def normQuery (q : Str) : Str := trimStr (toLowerStr q)

/-- FilterSystem.setSearch. -/
def setSearchFS (q : Str) (st : FSState) : FSState :=
  { st with searchQuery := normQuery q }

/-- FilterSystem.setFilter: an empty or all value deletes the dimension,
anything else stores it as a single selected value. -/
def setFilterFS (k v : Str) (st : FSState) : FSState :=
  if v = [] || v = lit "all" then
    { st with activeFilters := delAssoc k st.activeFilters }
  else
    { st with activeFilters := setAssoc k (FilterValue.single v) st.activeFilters }

/-- FilterSystem.toggleFilter.  A falsy entry (absent, or the impossible
single empty string) is first replaced by an empty array; adding pushes
the value unless already present; removing filters it out and deletes
the dimension when the array becomes empty.  When the entry is a
non-empty single string the JavaScript code either no-ops (includes hit
on the add path) or throws a TypeError before any mutation (push/filter
on a string); in every case the stored state is unchanged, which is what
the model returns. -/
def toggleFilterFS (k v : Str) (isActive : Bool) (st : FSState) : FSState :=
  match getAssoc k st.activeFilters with
  | some (FilterValue.single s) =>
    if s = [] then
      if isActive then
        { st with activeFilters := setAssoc k (FilterValue.multi [v]) st.activeFilters }
      else
        { st with activeFilters := delAssoc k st.activeFilters }
    else st
  | some (FilterValue.multi l) =>
    if isActive then
      if l.contains v then st
      else { st with activeFilters := setAssoc k (FilterValue.multi (l ++ [v])) st.activeFilters }
    else
      let l2 := l.filter (fun x => x ≠ v)
      if l2 = [] then { st with activeFilters := delAssoc k st.activeFilters }
      else { st with activeFilters := setAssoc k (FilterValue.multi l2) st.activeFilters }
  | none =>
    if isActive then
      { st with activeFilters := setAssoc k (FilterValue.multi [v]) st.activeFilters }
    else
      { st with activeFilters := delAssoc k st.activeFilters }

/-- FilterSystem.setSort. -/
def setSortFS (sb so : Str) (st : FSState) : FSState :=
  { st with sortBy := sb, sortOrder := so }

/-- FilterSystem.resetFilters (the state part; the UI resets are DOM
side effects outside the engine state). -/
def resetFiltersFS (st : FSState) : FSState :=
  { st with activeFilters := [], searchQuery := [] }

/-- FilterSystem.matchesFilter.  Errors model a thrown TypeError: the
price branch dereferences item.price.replace without a guard, so a
record with no price field throws.  Every other branch resolves missing
fields to false via strict/guarded comparisons. -/
def matchesFilterFS (item : Rec) (filterType filterValue : Str) : Except Unit Bool :=
  if filterType = lit "type" then
    .ok (item.typ = some filterValue)
  else if filterType = lit "styles" then
    if filterValue = lit "1-5" then
      .ok (match item.styles with | some n => n ≤ 5 | none => false)
    else if filterValue = lit "6-10" then
      .ok (match item.styles with | some n => 6 ≤ n ∧ n ≤ 10 | none => false)
    else if filterValue = lit "11+" then
      .ok (match item.styles with | some n => 11 ≤ n | none => false)
    else
      .ok (match item.styles, parseIntJS filterValue with
           | some n, some m => n = m
           | _, _ => false)
  else if filterType = lit "status" then
    .ok (item.status = some filterValue)
  else if filterType = lit "external" then
    .ok (match item.isExternal with
         | some b => b = (filterValue = lit "true")
         | none => false)
  else if filterType = lit "price" then
    match item.price with
    | none => .error ()
    | some p =>
      let n := parseIntJS (removeFirst '$' p)
      if filterValue = lit "0-50" then
        .ok (match n with | some m => m ≤ 50 | none => false)
      else if filterValue = lit "51-100" then
        .ok (match n with | some m => 51 ≤ m ∧ m ≤ 100 | none => false)
      else if filterValue = lit "101+" then
        .ok (match n with | some m => 101 ≤ m | none => false)
      else .ok false
  else if filterType = lit "features" then
    .ok (match item.features with | some l => l.contains filterValue | none => false)
  else if filterType = lit "languages" then
    .ok (match item.languages with | some l => l.contains filterValue | none => false)
  else
    .ok (dynField item filterType = JSVal.str filterValue)

/-- Array.prototype.some with a callback that can throw: left-to-right,
short-circuiting on the first true, propagating the first exception. -/
def anyE {α : Type} (p : α → Except Unit Bool) : List α → Except Unit Bool
  | [] => .ok false
  | x :: xs => do
    let b ← p x
    if b then pure true else anyE p xs

/-- Array.prototype.filter with a callback that can throw: the callback
runs on every element left-to-right, the first exception propagates. -/
def filterE {α : Type} (p : α → Except Unit Bool) : List α → Except Unit (List α)
  | [] => .ok []
  | x :: xs => do
    let b ← p x
    let r ← filterE p xs
    pure (if b then x :: r else r)

/-- Array.prototype.map with a callback that can throw. -/
def mapE {α β : Type} (f : α → Except Unit β) : List α → Except Unit (List β)
  | [] => .ok []
  | x :: xs => do
    let y ← f x
    let r ← mapE f xs
    pure (y :: r)

/-- One active-filter entry applied to one record: a single value tests
matchesFilter directly, an array is an OR via Array.prototype.some
(which short-circuits and propagates exceptions). -/
def fvMatches (item : Rec) (k : Str) : FilterValue → Except Unit Bool
  | .single v => matchesFilterFS item k v
  | .multi vs => anyE (fun v => matchesFilterFS item k v) vs

/-- Substring hit of the already-lowercased query against an optional
string field, with the value and truthiness guard of the code. -/
def strHit (q : Str) (o : Option Str) : Bool :=
  match o with
  | some s => s ≠ [] && containsSub (toLowerStr s) q
  | none => false

/-- The search predicate of FilterSystem.getFilteredData over the fixed
field list name, nameDisplay, description, features. -/
def fsSearchHit (q : Str) (item : Rec) : Bool :=
  strHit q item.name || strHit q item.nameDisplay || strHit q item.description ||
    (match item.features with
     | some l => l.any (fun v => containsSub (toLowerStr v) q)
     | none => false)

/-- FilterSystem.getSortValue.  The price branch throws on a record with
no price field; every other branch is total. -/
def getSortValueFS (item : Rec) (sortBy : Str) : Except Unit JSVal :=
  if sortBy = lit "name" then
    .ok (jsOr (oStr item.nameDisplay) (oStr item.name))
  else if sortBy = lit "price" then
    match item.price with
    | none => .error ()
    | some p =>
      .ok (match parseIntJS (removeFirst '$' p) with
           | some n => .num n
           | none => .nan)
  else if sortBy = lit "styles" then
    .ok (oNum item.styles)
  else if sortBy = lit "date" then
    .ok (jsOr (oStr item.releaseDate) (jsOr (oStr item.lastUpdated) (.str (lit "2025-01-01"))))
  else
    .ok (jsOr (dynField item sortBy) (.str []))

/-- The three-way comparison of FilterSystem.getFilteredData's sort
callback on two already-extracted sort values: each operand is
lowercased when it is a string, then compared with the JavaScript
relational operators. -/
def fsCompareVals (va vb : JSVal) : Int :=
  let a := lowerV va
  let b := lowerV vb
  if jsLtV a b then -1 else if jsLtV b a then 1 else 0

/-- Direction adjustment: desc negates the comparison. -/
def dirAdjust (so : Str) (c : Int) : Int := if so = lit "desc" then -c else c

/-- The sort stage of FilterSystem.getFilteredData.  Array.prototype.sort
is modelled by a stable merge sort over (record, sort value) pairs; the
comparator is never invoked on arrays of fewer than two elements, and on
longer arrays it evaluates getSortValue on every participating record,
so a throwing extraction aborts the sort exactly when some record's
extraction throws. -/
def applySortFS (sb so : Str) (l : List Rec) : Except Unit (List Rec) :=
  if l.length ≤ 1 then .ok l
  else do
    let keyed ← mapE (fun r => do
      let v ← getSortValueFS r sb
      pure (r, v)) l
    pure ((keyed.mergeSort (fun a b => dirAdjust so (fsCompareVals a.2 b.2) ≤ 0)).map Prod.fst)

/-- The filter stage of FilterSystem.getFilteredData: each active
dimension narrows the working list in insertion order; a thrown
TypeError from a matcher propagates. -/
def fsFilterStage (filters : List (Str × FilterValue)) (l : List Rec) : Except Unit (List Rec) :=
  filters.foldlM (fun acc kv => filterE (fun item => fvMatches item kv.1 kv.2) acc) l

/-- FilterSystem.getFilteredData: search, then active filters, then
sort, over a copy of the data. -/
def getFilteredDataFS (data : List Rec) (st : FSState) : Except Unit (List Rec) := do
  let afterSearch :=
    if st.searchQuery ≠ [] then data.filter (fun it => fsSearchHit st.searchQuery it) else data
  let afterFilters ← fsFilterStage st.activeFilters afterSearch
  applySortFS st.sortBy st.sortOrder afterFilters

/-! URL state import/export.  URLSearchParams is modelled as the ordered
list of its decoded key/value pairs; set replaces the first occurrence
of the key in place (removing later duplicates) or appends. -/

/-- URLSearchParams.set. -/
def usSet (k v : Str) : List (Str × Str) → List (Str × Str)
  | [] => [(k, v)]
  | (k2, v2) :: t =>
    if k2 = k then (k, v) :: t.filter (fun p => p.1 ≠ k)
    else (k2, v2) :: usSet k v t

/-- URLSearchParams.get: the first value under the key. -/
def usGet (k : Str) (ps : List (Str × Str)) : Option Str :=
  match ps.find? (fun p => p.1 = k) with
  | some p => some p.2
  | none => none

/-- The string a filter entry exports to: arrays are comma-joined. -/
def serializeFV : FilterValue → Str
  | .single v => v
  | .multi vs => joinChar ',' vs

/-- FilterSystem.exportToURL: search first when non-empty, then one
parameter per active dimension, then sort - but only when sortBy
differs from name. -/
def exportToURL (st : FSState) : List (Str × Str) :=
  let p := if st.searchQuery ≠ [] then usSet (lit "search") st.searchQuery [] else []
  let p := st.activeFilters.foldl (fun acc kv => usSet kv.1 (serializeFV kv.2) acc) p
  if st.sortBy ≠ lit "name" then usSet (lit "sort") (st.sortBy ++ ':' :: st.sortOrder) p else p

/-- FilterSystem.importFromURL: apply the search parameter, then each
non-reserved parameter (comma values toggle each piece, plain values go
through setFilter), then the sort parameter (a missing direction piece
defaults to asc via the default parameter of setSort). -/
def importFromURL (ps : List (Str × Str)) (st0 : FSState) : FSState :=
  let st1 :=
    match usGet (lit "search") ps with
    | some s => if s ≠ [] then setSearchFS s st0 else st0
    | none => st0
  let st2 := ps.foldl (fun st kv =>
    if kv.1 = lit "search" || kv.1 = lit "sort" then st
    else if kv.2.contains ',' then
      (splitOnChar ',' kv.2).foldl (fun s v => toggleFilterFS kv.1 v true s) st
    else setFilterFS kv.1 kv.2 st) st1
  match usGet (lit "sort") ps with
  | some s =>
    if s ≠ [] then
      let parts := splitOnChar ':' s
      let sb := parts.headD []
      let so := match parts.drop 1 with
        | [] => lit "asc"
        | x :: _ => x
      setSortFS sb so st2
    else st2
  | none => st2

/-! ## FiltersManager (src/unnamed/part_000) -/

/-- FiltersManager.sortCriteria. -/
structure SortCriteria where
  field : Str := lit "name"
  direction : Str := lit "asc"
  deriving DecidableEq, Repr

/-- FiltersManager.activeFilters: domain name to (dimension name to the
set of selected values), both Maps in insertion order, the sets as
duplicate-free lists in insertion order. -/
abbrev FMFilters := List (Str × List (Str × List Str))

/-- The style-count normalisation parseInt(styles) plus or-else 1 of
matchesStylesFilter: a missing or zero count becomes 1. -/
def fmCount (styles : Option Int) : Int :=
  match styles with
  | some n => if n = 0 then 1 else n
  | none => 1

/-- One bucket test of FiltersManager.matchesStylesFilter. -/
def fmStyleBucket (n : Int) (v : Str) : Bool :=
  if v = lit "1" then n = 1
  else if v = lit "2-5" then 2 ≤ n && n ≤ 5
  else if v = lit "6-10" then 6 ≤ n && n ≤ 10
  else if v = lit "10+" then 10 < n
  else false

/-- FiltersManager.matchesStylesFilter: any selected bucket may hit. -/
def fmMatchesStylesFilter (styles : Option Int) (vs : List Str) : Bool :=
  vs.any (fun v => fmStyleBucket (fmCount styles) v)

/-- The year normalisation parseInt(year) plus or-else current year of
matchesYearFilter; the wall-clock year is threaded as a parameter. -/
def fmYearOf (nowYear : Int) (year : Option Int) : Int :=
  match year with
  | some n => if n = 0 then nowYear else n
  | none => nowYear

/-- One bucket test of FiltersManager.matchesYearFilter. -/
def fmYearBucket (y : Int) (v : Str) : Bool :=
  if v = lit "2024" then y = 2024
  else if v = lit "2023" then y = 2023
  else if v = lit "2022" then y = 2022
  else if v = lit "2021" then y = 2021
  else if v = lit "older" then y < 2021
  else false

/-- FiltersManager.matchesYearFilter. -/
def fmMatchesYearFilter (nowYear : Int) (year : Option Int) (vs : List Str) : Bool :=
  vs.any (fun v => fmYearBucket (fmYearOf nowYear year) v)

/-- Set membership of a possibly-missing field value: values.has on a
field that may be undefined (a set of strings never has undefined). -/
def optContains (o : Option Str) (vs : List Str) : Bool :=
  match o with
  | some t => vs.contains t
  | none => false

/-- FiltersManager.matchesFilter: one dimension against the selected
value set.  All branches are total; an unknown dimension matches
everything. -/
def fmMatchesFilter (nowYear : Int) (item : Rec) (filterKey : Str) (vs : List Str) : Bool :=
  if filterKey = lit "type" then
    optContains item.typ vs
  else if filterKey = lit "styles" then
    fmMatchesStylesFilter item.styles vs
  else if filterKey = lit "variable" then
    let isVariable := item.typ = some (lit "variable") || item.variableAxes.isSome
    vs.contains (if isVariable then lit "yes" else lit "no")
  else if filterKey = lit "category" then
    optContains item.category vs
  else if filterKey = lit "year" then
    fmMatchesYearFilter nowYear item.year vs
  else if filterKey = lit "featured" then
    vs.contains (if item.featured = some true then lit "yes" else lit "no")
  else
    true

/-- The searchable fields of FiltersManager.matchesSearch, with the
filter(Boolean) step dropping missing and empty entries. -/
def fmSearchFields (item : Rec) : List Str :=
  ([item.name, item.title, item.descShort, item.descFull, item.category, item.typ].filterMap id).filter
    (fun s => s ≠ [])

/-- FiltersManager.matchesSearch against an already-lowercased query. -/
def fmMatchesSearch (item : Rec) (q : Str) : Bool :=
  (fmSearchFields item).any (fun f => containsSub (toLowerStr f) q)

/-- FiltersManager.getSortValue. -/
def fmGetSortValue (item : Rec) (field : Str) : JSVal :=
  if field = lit "name" || field = lit "title" then
    jsOr (oStr item.name) (jsOr (oStr item.title) (.str []))
  else if field = lit "styles" then
    .num (match item.styles with | some n => n | none => 0)
  else if field = lit "year" then
    .num (match item.year with | some n => n | none => 0)
  else if field = lit "category" || field = lit "type" then
    jsOr (oStr item.category) (jsOr (oStr item.typ) (.str []))
  else if field = lit "recent" then
    jsOr (oStr item.dateCreated) (jsOr (oNum item.year) (.num 0))
  else
    jsOr (dynField item field) (.str [])

/-- The three-way comparison of FiltersManager.applySorting's callback:
the two sort values are lowercased only when both are strings, then
compared with the JavaScript relational operators. -/
def fmCompare (f : Str) (a b : Rec) : Int :=
  let p :=
    match fmGetSortValue a f, fmGetSortValue b f with
    | JSVal.str sa, JSVal.str sb => (JSVal.str (toLowerStr sa), JSVal.str (toLowerStr sb))
    | va, vb => (va, vb)
  if jsLtV p.1 p.2 then -1 else if jsLtV p.2 p.1 then 1 else 0

/-- The boolean comparator FiltersManager.applySorting hands to the
sort, already adjusted for direction. -/
def fmLeB (c : SortCriteria) (a b : Rec) : Bool :=
  dirAdjust c.direction (fmCompare c.field a b) ≤ 0

/-- FiltersManager.applySorting on a working list: a stable sort by the
direction-adjusted comparator (Array.prototype.sort is stable). -/
def fmSortStage (c : SortCriteria) (l : List Rec) : List Rec :=
  l.mergeSort (fun a b => fmLeB c a b)

/-- FiltersManager.applySearch on a working list: the identity for an
empty query, otherwise a filter by matchesSearch with the lowercased
query. -/
def fmSearchStage (q : Str) (l : List Rec) : List Rec :=
  if q = [] then l else l.filter (fun it => fmMatchesSearch it (toLowerStr q))

/-- FiltersManager.applyFilters on the original collection: each active
dimension with a non-empty value set narrows the list in insertion
order. -/
def fmFilterStage (nowYear : Int) (typeFilters : List (Str × List Str)) (data : List Rec) : List Rec :=
  typeFilters.foldl
    (fun acc kv => if kv.2 ≠ [] then acc.filter (fun it => fmMatchesFilter nowYear it kv.1 kv.2) else acc)
    data

/-- The state of one FiltersManager instance that feeds its pipeline. -/
structure FMState where
  activeFilters : FMFilters := []
  sortCriteria : SortCriteria := {}
  searchQuery : Str := []
  deriving DecidableEq, Repr

/-- The visible list FiltersManager renders for a domain: the chain
applyFilters, then applySearch, then applySorting over the original
collection.  (applyFilters early-returns on an empty collection, which
leaves the initial copy of that same empty collection in place, so the
composition below is also faithful there.) -/
def fmVisible (nowYear : Int) (st : FMState) (dataType : Str) (data : List Rec) : List Rec :=
  fmSortStage st.sortCriteria
    (fmSearchStage st.searchQuery
      (fmFilterStage nowYear ((getAssoc dataType st.activeFilters).getD []) data))

/-- FiltersManager.handleFilterChange: get-or-create the domain map and
the dimension set, add or delete the value, then drop the dimension
when its set became empty and the domain when it has no dimensions. -/
def fmHandleFilterChange (dt k v : Str) (isChecked : Bool) (s : FMFilters) : FMFilters :=
  let typeFilters := (getAssoc dt s).getD []
  let filterValues := (getAssoc k typeFilters).getD []
  let filterValues :=
    if isChecked then (if filterValues.contains v then filterValues else filterValues ++ [v])
    else filterValues.filter (fun x => x ≠ v)
  let typeFilters :=
    if filterValues = [] then delAssoc k typeFilters else setAssoc k filterValues typeFilters
  if typeFilters = [] then delAssoc dt s else setAssoc dt typeFilters s

/-- FiltersManager.handleClearFilters: drop the domain's entry. -/
def fmClearType (dt : Str) (s : FMFilters) : FMFilters := delAssoc dt s

/-! ## DataLoader (src/unnamed/part_002 and src/unnamed/part_001) -/

/-- The site-config fallback object of getEmptyStructure, reduced to its
leaf strings and navigation lists. -/
structure SiteConfig where
  siteTitle : Str := []
  siteAuthor : Str := []
  siteDescription : Str := []
  aboutText : Str := []
  aboutImage : Str := []
  navMain : List Str := []
  navFooter : List Str := []
  deriving DecidableEq, Repr

/-- A parsed JSON data file, tagged by its top-level shape. -/
inductive DataFile where
  | typefacesData (fonts : List Rec)
  | projectsData (projects : List Rec)
  | letteringData (letterings : List Rec) (types : List Str)
  | siteConfigData (c : SiteConfig)
  | emptyObj
  deriving DecidableEq, Repr

/-- DataLoader.getEmptyStructure (src/unnamed/part_002): the documented
per-file fallback shape, an empty object for unknown names. -/
def getEmptyStructure (filename : Str) : DataFile :=
  if filename = lit "typefaces" then .typefacesData []
  else if filename = lit "projects" then .projectsData []
  else if filename = lit "lettering" then .letteringData [] []
  else if filename = lit "site-config" then
    .siteConfigData { siteTitle := lit "The Loveprinting Machine" }
  else .emptyObj

/-- DataLoader.loadData (src/unnamed/part_002): cache hit short-circuits;
otherwise the outcome of the fetch-and-parse (an Except, since the code
catches every error from fetch, the ok test and response.json) either is
cached and returned, or is replaced by the empty fallback structure.
The function is total: it always resolves, never rejects. -/
def loadData (cache : List (Str × DataFile)) (filename : Str)
    (fetchResult : Except Str DataFile) : DataFile × List (Str × DataFile) :=
  match getAssoc filename cache with
  | some d => (d, cache)
  | none =>
    match fetchResult with
    | .ok d => (d, setAssoc filename d cache)
    | .error _ => (getEmptyStructure filename, cache)

/-- The record list FiltersManager.loadDataForType extracts from a
loaded file for a domain (data.fonts / data.projects / data.letterings,
each with an or-else empty fallback). -/
def recordsFor (dataType : Str) (d : DataFile) : List Rec :=
  if dataType = lit "typefaces" then
    match d with | .typefacesData fs => fs | _ => []
  else if dataType = lit "projects" then
    match d with | .projectsData ps => ps | _ => []
  else if dataType = lit "lettering" then
    match d with | .letteringData ls _ => ls | _ => []
  else []

/-- DataLoader.loadTypefaces (src/unnamed/part_001): on any error from
loadJSON (which validates and can throw after retries) the catch block
resolves to a stub with an empty fonts list.  The success path's per-font
path normalisation and the time-stamped meta block do not affect the
resolve-versus-reject behaviour and are not modelled. -/
def loadTypefaces (fetchResult : Except Str DataFile) : DataFile :=
  match fetchResult with
  | .ok d => d
  | .error _ => .typefacesData []

/-! ## Helper lemmas -/

/-- mergeSort on a two-element list is a single comparison. -/
theorem mergeSort_pair {α : Type} (le : α → α → Bool) (a b : α) :
    [a, b].mergeSort le = if le a b then [a, b] else [b, a] := by
  rw [List.mergeSort]
  simp [List.mergeSort, List.merge]

/-- Evaluation of the FilterSystem sort stage on a two-element list with
successfully extracted keys. -/
theorem applySortFS_pair (sb so : Str) (a b : Rec) (ka kb : JSVal)
    (ha : getSortValueFS a sb = .ok ka) (hb : getSortValueFS b sb = .ok kb) :
    applySortFS sb so [a, b] =
      .ok (if dirAdjust so (fsCompareVals ka kb) ≤ 0 then [a, b] else [b, a]) := by
  have h1 : applySortFS sb so [a, b] =
      Except.ok (([(a, ka), (b, kb)].mergeSort
        (fun x y => dirAdjust so (fsCompareVals x.2 y.2) ≤ 0)).map Prod.fst) := by
    simp only [applySortFS, mapE, ha, hb]
    rfl
  rw [h1, mergeSort_pair]
  by_cases hc : dirAdjust so (fsCompareVals ka kb) ≤ 0
  · simp [hc]
  · simp [hc]

/-- Evaluation of the FiltersManager sort stage on a two-element list. -/
theorem fmSortStage_pair (c : SortCriteria) (a b : Rec) :
    fmSortStage c [a, b] = if fmLeB c a b then [a, b] else [b, a] := by
  simp [fmSortStage, mergeSort_pair]

/-- splitOnChar never returns the empty list. -/
theorem splitOnChar_ne_nil (c : Char) (s : Str) : splitOnChar c s ≠ [] := by
  induction s with
  | nil => simp [splitOnChar]
  | cons x xs ih =>
    simp only [splitOnChar]
    match h : splitOnChar c xs with
    | [] => exact absurd h ih
    | y :: ys => dsimp; split <;> simp

/-- Splitting a separator-free string returns it whole. -/
theorem splitOnChar_not_mem (c : Char) (s : Str) (h : c ∉ s) : splitOnChar c s = [s] := by
  induction s with
  | nil => rfl
  | cons x xs ih =>
    simp only [List.mem_cons, not_or] at h
    simp only [splitOnChar, ih h.2]
    simp [Ne.symm h.1]

/-- Splitting after a leading separator yields a leading empty piece. -/
theorem splitOnChar_cons_self (c : Char) (s : Str) :
    splitOnChar c (c :: s) = [] :: splitOnChar c s := by
  match hr : splitOnChar c s with
  | [] => exact absurd hr (splitOnChar_ne_nil c s)
  | y :: ys => simp [splitOnChar, hr]

/-- Splitting past a separator-free prefix extends the first piece. -/
theorem splitOnChar_append (c : Char) (x r : Str) (h : c ∉ x) (y : Str) (ys : List Str)
    (hr : splitOnChar c r = y :: ys) :
    splitOnChar c (x ++ r) = (x ++ y) :: ys := by
  induction x with
  | nil => simpa using hr
  | cons a as ih =>
    simp only [List.mem_cons, not_or] at h
    simp only [List.cons_append, splitOnChar, List.append_eq]
    rw [ih h.2]
    simp [Ne.symm h.1]

/-- split undoes join on a non-empty list of separator-free pieces. -/
theorem splitOnChar_joinChar (c : Char) (ps : List Str)
    (h : ∀ p ∈ ps, c ∉ p) (hne : ps ≠ []) :
    splitOnChar c (joinChar c ps) = ps := by
  induction ps with
  | nil => exact absurd rfl hne
  | cons x xs ih =>
    match xs, ih with
    | [], _ =>
      have hx : c ∉ x := h x (by simp)
      simp [joinChar, splitOnChar_not_mem c x hx]
    | y :: ys, ih =>
      have hx : c ∉ x := h x (by simp)
      have hrest : ∀ p ∈ y :: ys, c ∉ p := fun p hp => h p (List.mem_cons_of_mem x hp)
      have ihr := ih hrest (by simp)
      have hsplit : splitOnChar c (c :: joinChar c (y :: ys)) = [] :: y :: ys := by
        rw [splitOnChar_cons_self, ihr]
      simp only [joinChar]
      rw [splitOnChar_append c x _ hx _ _ hsplit]
      simp

/-- A join of at least two pieces contains the separator. -/
theorem mem_joinChar_two (c : Char) (x y : Str) (ys : List Str) :
    c ∈ joinChar c (x :: y :: ys) := by
  simp [joinChar]

/-! Order facts about the JavaScript comparison used by the sort
comparators. -/

/-- Lexicographic string comparison is asymmetric. -/
theorem lexLt_asymm : ∀ (a b : Str), lexLt a b = true → lexLt b a = false := by
  intro a
  induction a with
  | nil =>
    intro b h
    cases b with
    | nil => simp [lexLt] at h
    | cons y ys => simp [lexLt]
  | cons x xs ih =>
    intro b h
    cases b with
    | nil => simp [lexLt] at h
    | cons y ys =>
      simp only [lexLt] at h ⊢
      rcases lt_trichotomy x y with h1 | h1 | h1
      · rw [if_neg (asymm h1), if_pos h1]
      · subst h1
        rw [if_neg (lt_irrefl x), if_neg (lt_irrefl x)] at h ⊢
        exact ih ys h
      · rw [if_neg (asymm h1), if_pos h1] at h
        exact absurd h (by simp)

/-- Lexicographic string comparison is transitive. -/
theorem lexLt_trans : ∀ (a b c : Str), lexLt a b = true → lexLt b c = true → lexLt a c = true := by
  intro a
  induction a with
  | nil =>
    intro b c h1 h2
    cases c with
    | nil =>
      cases b with
      | nil => simp [lexLt] at h1
      | cons y ys => simp [lexLt] at h2
    | cons z zs => simp [lexLt]
  | cons x xs ih =>
    intro b c h1 h2
    cases b with
    | nil => simp [lexLt] at h1
    | cons y ys =>
      cases c with
      | nil => simp [lexLt] at h2
      | cons z zs =>
        simp only [lexLt] at h1 h2 ⊢
        rcases lt_trichotomy x y with hxy | hxy | hxy
        · rcases lt_trichotomy y z with hyz | hyz | hyz
          · rw [if_pos (lt_trans hxy hyz)]
          · subst hyz
            rw [if_pos hxy]
          · rw [if_neg (asymm hyz), if_pos hyz] at h2
            exact absurd h2 (by simp)
        · subst hxy
          rw [if_neg (lt_irrefl x), if_neg (lt_irrefl x)] at h1
          rcases lt_trichotomy x z with hxz | hxz | hxz
          · rw [if_pos hxz]
          · subst hxz
            rw [if_neg (lt_irrefl x), if_neg (lt_irrefl x)] at h2 ⊢
            exact ih ys zs h1 h2
          · rw [if_neg (asymm hxz), if_pos hxz] at h2
            exact absurd h2 (by simp)
        · rw [if_neg (asymm hxy), if_pos hxy] at h1
          exact absurd h1 (by simp)

/-- Two strings with no strict lexicographic comparison either way are
equal. -/
theorem lexLt_connex : ∀ (a b : Str), lexLt a b = false → lexLt b a = false → a = b := by
  intro a
  induction a with
  | nil =>
    intro b h1 _
    cases b with
    | nil => rfl
    | cons y ys => simp [lexLt] at h1
  | cons x xs ih =>
    intro b h1 h2
    cases b with
    | nil => simp [lexLt] at h2
    | cons y ys =>
      simp only [lexLt] at h1 h2
      rcases lt_trichotomy x y with hxy | hxy | hxy
      · rw [if_pos hxy] at h1
        exact absurd h1 (by simp)
      · subst hxy
        rw [if_neg (lt_irrefl x), if_neg (lt_irrefl x)] at h1 h2
        rw [ih ys h1 h2]
      · rw [if_pos hxy] at h2
        exact absurd h2 (by simp)

/-- Asymmetry of the numeric fallback branch of the < comparison. -/
theorem optNumLt_asymm (oa ob : Option Int) (h : optNumLt oa ob = true) :
    optNumLt ob oa = false := by
  cases oa with
  | none => cases ob <;> simp [optNumLt] at h
  | some x =>
    cases ob with
    | none => simp [optNumLt] at h
    | some y =>
      simp only [optNumLt, decide_eq_true_eq] at h
      simp only [optNumLt, decide_eq_false_iff_not]
      omega

/-- The JavaScript < comparison is asymmetric on every pair of values. -/
theorem jsLtV_asymm {a b : JSVal} (h : jsLtV a b = true) : jsLtV b a = false := by
  unfold jsLtV at h ⊢
  cases hpa : toPrimV a <;> cases hpb : toPrimV b <;> rw [hpa, hpb] at h <;>
    dsimp only at h ⊢ <;>
    first
      | exact lexLt_asymm _ _ h
      | exact optNumLt_asymm _ _ h

/-- Antisymmetry of a three-way comparison built from an asymmetric
strict comparison. -/
theorem threeWay_antisymm (va vb : JSVal) :
    (if jsLtV vb va then (-1 : Int) else if jsLtV va vb then 1 else 0) =
      -(if jsLtV va vb then (-1 : Int) else if jsLtV vb va then 1 else 0) := by
  cases h1 : jsLtV va vb
  · cases h2 : jsLtV vb va <;> simp
  · rw [jsLtV_asymm h1]
    simp

/-- The three-way FiltersManager comparison is antisymmetric. -/
theorem fmCompare_antisymm (f : Str) (a b : Rec) : fmCompare f b a = -fmCompare f a b := by
  unfold fmCompare
  cases hva : fmGetSortValue a f <;> cases hvb : fmGetSortValue b f <;> dsimp <;>
    exact threeWay_antisymm _ _

/-- The three-way FilterSystem comparison is antisymmetric. -/
theorem fsCompareVals_antisymm (va vb : JSVal) : fsCompareVals vb va = -fsCompareVals va vb := by
  unfold fsCompareVals
  exact threeWay_antisymm _ _

/-! Sortedness machinery for the FiltersManager comparator, under the
homogeneity hypothesis that all sort keys of the list have one kind
(all strings or all numbers) - the regime in which the JavaScript
comparator is consistent and Array.prototype.sort's behaviour is
specified. -/

/-- Is a value a string. -/
def isStrKind : JSVal → Bool
  | .str _ => true
  | _ => false

/-- Is a value a number. -/
def isNumKind : JSVal → Bool
  | .num _ => true
  | _ => false

/-- The strict comparison on lowered sort keys of two records. -/
def fmKLt (f : Str) (a b : Rec) : Bool :=
  jsLtV (lowerV (fmGetSortValue a f)) (lowerV (fmGetSortValue b f))

/-- Two values of one kind. -/
def sameKind (u v : JSVal) : Prop :=
  (isStrKind u = true ∧ isStrKind v = true) ∨ (isNumKind u = true ∧ isNumKind v = true)

/-- On string pairs the JavaScript < is lexicographic. -/
theorem jsLtV_str (x y : Str) : jsLtV (.str x) (.str y) = lexLt x y := rfl

/-- On number pairs the JavaScript < is the integer order. -/
theorem jsLtV_num (x y : Int) : jsLtV (.num x) (.num y) = decide (x < y) := rfl

/-- Transitivity of the JavaScript < on three values of one kind. -/
theorem jsLtV_trans_kind {u v w : JSVal} (huv : sameKind u v) (hvw : sameKind v w)
    (h1 : jsLtV u v = true) (h2 : jsLtV v w = true) : jsLtV u w = true := by
  cases u <;> cases v <;> cases w <;>
    simp [sameKind, isStrKind, isNumKind] at huv hvw <;>
    simp [jsLtV_str, jsLtV_num] at h1 h2 ⊢ <;>
    first
      | exact lexLt_trans _ _ _ h1 h2
      | omega

/-- Connexity of the JavaScript < on two values of one kind: values
incomparable both ways are equal. -/
theorem jsLtV_connex_kind {u v : JSVal} (huv : sameKind u v)
    (h1 : jsLtV u v = false) (h2 : jsLtV v u = false) : u = v := by
  cases u <;> cases v <;>
    simp [sameKind, isStrKind, isNumKind] at huv <;>
    simp [jsLtV_str, jsLtV_num] at h1 h2 ⊢ <;>
    first
      | exact lexLt_connex _ _ h1 h2
      | omega

/-- Lowering preserves the kind. -/
theorem lowerV_sameKind {u v : JSVal} (h : sameKind u v) :
    sameKind (lowerV u) (lowerV v) := by
  cases u <;> cases v <;> simp_all [sameKind, isStrKind, isNumKind, lowerV]

/-- The FiltersManager comparison on records with keys of one kind is
the three-way comparison of the lowered keys. -/
theorem fmCompare_eq_klt (f : Str) (a b : Rec)
    (h : sameKind (fmGetSortValue a f) (fmGetSortValue b f)) :
    fmCompare f a b =
      if fmKLt f a b then -1 else if fmKLt f b a then 1 else 0 := by
  unfold fmCompare fmKLt
  cases hva : fmGetSortValue a f <;> cases hvb : fmGetSortValue b f <;>
    simp_all [sameKind, isStrKind, isNumKind, lowerV]

/-- Direction-adjusted comparison against zero, for an asymmetric pair
of strict-comparison booleans. -/
theorem dirLe_iff (dir : Str) (x y : Bool) (hxy : x = true → y = false) :
    (dirAdjust dir (if x then (-1 : Int) else if y then 1 else 0) ≤ 0) ↔
      (if dir = lit "desc" then x = false else y = false) := by
  unfold dirAdjust
  split <;> cases x <;> cases y <;> simp_all

/-- The boolean comparator in terms of the strict key comparison. -/
theorem fmLeB_iff (c : SortCriteria) (a b : Rec)
    (h : sameKind (fmGetSortValue a c.field) (fmGetSortValue b c.field)) :
    fmLeB c a b = true ↔
      (if c.direction = lit "desc" then fmKLt c.field a b = false else fmKLt c.field b a = false) := by
  unfold fmLeB
  rw [fmCompare_eq_klt c.field a b h]
  rw [show fmKLt c.field a b = jsLtV (lowerV (fmGetSortValue a c.field)) (lowerV (fmGetSortValue b c.field)) from rfl]
  rw [show fmKLt c.field b a = jsLtV (lowerV (fmGetSortValue b c.field)) (lowerV (fmGetSortValue a c.field)) from rfl]
  rw [decide_eq_true_eq]
  exact dirLe_iff c.direction _ _ (fun hx => jsLtV_asymm hx)

/-- Totality of the boolean comparator on a pair of one kind. -/
theorem fmLeB_total (c : SortCriteria) (a b : Rec)
    (h : sameKind (fmGetSortValue a c.field) (fmGetSortValue b c.field)) :
    fmLeB c a b = true ∨ fmLeB c b a = true := by
  have hsymm : sameKind (fmGetSortValue b c.field) (fmGetSortValue a c.field) := by
    rcases h with ⟨h1, h2⟩ | ⟨h1, h2⟩
    · exact Or.inl ⟨h2, h1⟩
    · exact Or.inr ⟨h2, h1⟩
  rw [fmLeB_iff c a b h, fmLeB_iff c b a hsymm]
  cases hab : fmKLt c.field a b
  · cases hba : fmKLt c.field b a <;> split <;> simp
  · have := jsLtV_asymm (a := lowerV (fmGetSortValue a c.field)) (b := lowerV (fmGetSortValue b c.field)) hab
    rw [show fmKLt c.field b a = jsLtV (lowerV (fmGetSortValue b c.field)) (lowerV (fmGetSortValue a c.field)) from rfl]
    rw [this]
    split <;> simp

/-- Symmetry of kind agreement. -/
theorem sameKind_symm {u v : JSVal} (h : sameKind u v) : sameKind v u := by
  rcases h with ⟨x, y⟩ | ⟨x, y⟩
  · exact Or.inl ⟨y, x⟩
  · exact Or.inr ⟨y, x⟩

/-- Transfer of the non-strict comparison along the strict order: from
not v < u and not w < v conclude not w < u, on values of one kind. -/
theorem jsLtV_nle_trans {u v w : JSVal}
    (hvw : sameKind v w) (hwu : sameKind w u)
    (h1 : jsLtV v u = false) (h2 : jsLtV w v = false) : jsLtV w u = false := by
  cases hlt : jsLtV v w with
  | true =>
    by_contra hc
    rw [Bool.not_eq_false] at hc
    exact absurd (jsLtV_trans_kind hvw hwu hlt hc) (by simp [h1])
  | false =>
    have heq : v = w := jsLtV_connex_kind hvw hlt h2
    rw [← heq]
    exact h1

/-- Transitivity of the boolean comparator on three keys of one kind. -/
theorem fmLeB_trans (c : SortCriteria) (a b d : Rec)
    (hab : sameKind (fmGetSortValue a c.field) (fmGetSortValue b c.field))
    (hbd : sameKind (fmGetSortValue b c.field) (fmGetSortValue d c.field))
    (had : sameKind (fmGetSortValue a c.field) (fmGetSortValue d c.field))
    (h1 : fmLeB c a b = true) (h2 : fmLeB c b d = true) : fmLeB c a d = true := by
  have habL := lowerV_sameKind hab
  have hbdL := lowerV_sameKind hbd
  have hadL := lowerV_sameKind had
  rw [fmLeB_iff c a b hab] at h1
  rw [fmLeB_iff c b d hbd] at h2
  rw [fmLeB_iff c a d had]
  unfold fmKLt at h1 h2 ⊢
  split at h1 <;> rename_i hdir
  · rw [if_pos hdir] at h2 ⊢
    exact jsLtV_nle_trans (sameKind_symm habL) hadL h2 h1
  · rw [if_neg hdir] at h2 ⊢
    exact jsLtV_nle_trans hbdL (sameKind_symm hadL) h1 h2

/-- The sort stage through the member subtype, so that the comparator
hypotheses can be localised to the list being sorted. -/
theorem fmSortStage_eq_attach (c : SortCriteria) (l : List Rec) :
    fmSortStage c l =
      (l.attach.mergeSort (fun a b => fmLeB c a.1 b.1)).map Subtype.val := by
  have h := @List.map_mergeSort _ _ (fun a b : {x // x ∈ l} => fmLeB c a.1 b.1)
    (fun a b : Rec => fmLeB c a b) Subtype.val l.attach (fun a _ b _ => rfl)
  rw [List.attach_map_subtype_val] at h
  exact h.symm

/-- The sort stage is a permutation of its input. -/
theorem fmSortStage_perm (c : SortCriteria) (l : List Rec) : List.Perm (fmSortStage c l) l :=
  List.mergeSort_perm l _

/-- Homogeneity of sort-key kinds over a list. -/
def homKeys (f : Str) (l : List Rec) : Prop :=
  (∀ r ∈ l, isStrKind (fmGetSortValue r f) = true) ∨
  (∀ r ∈ l, isNumKind (fmGetSortValue r f) = true)

/-- Any two members of a kind-homogeneous list have keys of one kind. -/
theorem homKeys_sameKind {f : Str} {l : List Rec} (h : homKeys f l)
    {a b : Rec} (ha : a ∈ l) (hb : b ∈ l) :
    sameKind (fmGetSortValue a f) (fmGetSortValue b f) := by
  rcases h with h | h
  · exact Or.inl ⟨h a ha, h b hb⟩
  · exact Or.inr ⟨h a ha, h b hb⟩

/-- The subtype comparator is transitive on a kind-homogeneous list. -/
theorem fmLeB_trans_subtype (c : SortCriteria) (l : List Rec) (h : homKeys c.field l) :
    ∀ (a b d : {x // x ∈ l}),
      fmLeB c a.1 b.1 = true → fmLeB c b.1 d.1 = true → fmLeB c a.1 d.1 = true := by
  intro a b d h1 h2
  exact fmLeB_trans c a.1 b.1 d.1
    (homKeys_sameKind h a.2 b.2) (homKeys_sameKind h b.2 d.2) (homKeys_sameKind h a.2 d.2) h1 h2

/-- The subtype comparator is total on a kind-homogeneous list. -/
theorem fmLeB_total_subtype (c : SortCriteria) (l : List Rec) (h : homKeys c.field l) :
    ∀ (a b : {x // x ∈ l}), fmLeB c a.1 b.1 || fmLeB c b.1 a.1 := by
  intro a b
  rcases fmLeB_total c a.1 b.1 (homKeys_sameKind h a.2 b.2) with h1 | h1 <;> simp [h1]

/-- The output of the sort stage is ordered by the comparator, for a
kind-homogeneous list. -/
theorem fmSortStage_sorted (c : SortCriteria) (l : List Rec) (h : homKeys c.field l) :
    (fmSortStage c l).Pairwise (fun a b => fmLeB c a b = true) := by
  rw [fmSortStage_eq_attach]
  rw [List.pairwise_map]
  exact List.sorted_mergeSort (fmLeB_trans_subtype c l h) (fmLeB_total_subtype c l h) l.attach

/-- Every sublist lifts through attach. -/
theorem exists_attach_sublist {α : Type} : ∀ {s l : List α}, s.Sublist l →
    ∃ t : List {x // x ∈ l}, t.map Subtype.val = s ∧ t.Sublist l.attach := by
  intro s l h
  induction h with
  | slnil => exact ⟨[], rfl, List.Sublist.refl _⟩
  | cons a h ih =>
    rename_i s2 l2
    obtain ⟨t, ht1, ht2⟩ := ih
    refine ⟨t.map (fun x => ⟨x.1, List.mem_cons_of_mem a x.2⟩), ?_, ?_⟩
    · rw [List.map_map]
      exact ht1
    · rw [List.attach_cons]
      exact (ht2.map _).cons _
  | cons₂ a h ih =>
    rename_i s2 l2
    obtain ⟨t, ht1, ht2⟩ := ih
    refine ⟨⟨a, List.mem_cons_self a l2⟩ :: t.map (fun x => ⟨x.1, List.mem_cons_of_mem a x.2⟩), ?_, ?_⟩
    · simp only [List.map_cons, List.map_map]
      exact congrArg (a :: ·) ht1
    · rw [List.attach_cons]
      exact (ht2.map _).cons₂ _

/-- Stability of the sort stage: a pair in input order whose records
compare equal stays in that order, for a kind-homogeneous list. -/
theorem fmSortStage_stable (c : SortCriteria) (l : List Rec) (h : homKeys c.field l)
    (a b : Rec) (hs : [a, b].Sublist l) (hcmp : fmCompare c.field a b = 0) :
    [a, b].Sublist (fmSortStage c l) := by
  obtain ⟨t, ht1, ht2⟩ := exists_attach_sublist hs
  cases t with
  | nil => simp at ht1
  | cons x t1 =>
    cases t1 with
    | nil => simp at ht1
    | cons y t2 =>
      cases t2 with
      | cons z t3 => simp at ht1
      | nil =>
        simp only [List.map_cons, List.map_nil, List.cons.injEq, and_true] at ht1
        obtain ⟨hx, hy⟩ := ht1
        have hle : fmLeB c x.1 y.1 = true := by
          rw [hx, hy]
          unfold fmLeB
          rw [hcmp]
          simp [dirAdjust]
        have hp := List.pair_sublist_mergeSort
          (fmLeB_trans_subtype c l h) (fmLeB_total_subtype c l h) hle ht2
        have hmap := hp.map Subtype.val
        rw [fmSortStage_eq_attach]
        simpa [hx, hy] using hmap

/-- Flipping the direction exactly reverses the sort output when the
comparator has no ties on the list, for a kind-homogeneous list. -/
theorem fmSortStage_rev (f : Str) (l : List Rec) (h : homKeys f l)
    (hnt : ∀ a ∈ l, ∀ b ∈ l, fmCompare f a b = 0 → a = b) :
    fmSortStage ⟨f, lit "desc"⟩ l = (fmSortStage ⟨f, lit "asc"⟩ l).reverse := by
  have hperm : List.Perm (fmSortStage ⟨f, lit "desc"⟩ l) ((fmSortStage ⟨f, lit "asc"⟩ l).reverse) := by
    refine (fmSortStage_perm _ l).trans (List.Perm.symm ?_)
    exact (List.reverse_perm _).trans (fmSortStage_perm _ l)
  have hs1 := fmSortStage_sorted ⟨f, lit "desc"⟩ l h
  have hs2 := fmSortStage_sorted ⟨f, lit "asc"⟩ l h
  have hs2r : ((fmSortStage ⟨f, lit "asc"⟩ l).reverse).Pairwise
      (fun a b => fmLeB ⟨f, lit "desc"⟩ a b = true) := by
    rw [List.pairwise_reverse]
    refine hs2.imp ?_
    intro a b hab
    unfold fmLeB at hab ⊢
    simp only [dirAdjust] at hab ⊢
    rw [decide_eq_true_eq] at hab ⊢
    rw [if_neg (by decide : ¬ (lit "asc" = lit "desc"))] at hab
    rw [if_pos trivial]
    rw [fmCompare_antisymm f a b]
    omega
  refine hperm.eq_of_sorted ?_ hs1 hs2r
  intro a b ha hb hab hba
  have ha2 : a ∈ l := (fmSortStage_perm _ l).subset ha
  have hb2 : b ∈ l := (fmSortStage_perm _ l).subset ((List.reverse_perm _).subset hb)
  have hk := homKeys_sameKind h ha2 hb2
  rw [fmLeB_iff _ a b hk] at hab
  rw [fmLeB_iff _ b a (sameKind_symm hk)] at hba
  rw [if_pos rfl] at hab hba
  apply hnt a ha2 b hb2
  rw [fmCompare_eq_klt f a b hk]
  rw [hab, hba]
  simp

/-! Success and commutation lemmas for the throwing array operations. -/

/-- The boolean a throwing predicate produced when it succeeded, false
on an exception (only used where success is separately known). -/
def okD (e : Except Unit Bool) : Bool :=
  match e with
  | .ok b => b
  | .error _ => false

/-- A filter whose callback succeeds everywhere computes the plain
filter of the result booleans. -/
theorem filterE_eq_ok {α : Type} (p : α → Except Unit Bool) :
    ∀ (l : List α), (∀ x ∈ l, ∃ b, p x = .ok b) →
      filterE p l = .ok (l.filter (fun x => okD (p x))) := by
  intro l
  induction l with
  | nil => intro _; rfl
  | cons x xs ih =>
    intro h
    obtain ⟨b, hb⟩ := h x (by simp)
    have hrest := ih (fun y hy => h y (List.mem_cons_of_mem x hy))
    simp only [filterE, hb, hrest, List.filter_cons]
    cases b <;> simp [okD, hb] <;> rfl

/-- A successful filter had a succeeding callback on every element. -/
theorem filterE_ok_all {α : Type} (p : α → Except Unit Bool) :
    ∀ (l : List α) (m : List α), filterE p l = .ok m → ∀ x ∈ l, ∃ b, p x = .ok b := by
  intro l
  induction l with
  | nil => intro m _ x hx; simp at hx
  | cons y ys ih =>
    intro m h x hx
    rw [show filterE p (y :: ys) = (do
        let b ← p y
        let r ← filterE p ys
        pure (if b then y :: r else r)) from rfl] at h
    cases hpy : p y with
    | error e =>
      rw [hpy] at h
      exact absurd (show (Except.error e : Except Unit (List α)) = Except.ok m from h) (by simp)
    | ok b =>
      rw [hpy] at h
      cases hr : filterE p ys with
      | error e =>
        rw [hr] at h
        exact absurd (show (Except.error e : Except Unit (List α)) = Except.ok m from h) (by simp)
      | ok m2 =>
        rcases List.mem_cons.mp hx with rfl | hx2
        · exact ⟨b, hpy⟩
        · exact ih m2 hr x hx2

/-- The value of a successful filter. -/
theorem filterE_ok_val {α : Type} (p : α → Except Unit Bool) (l m : List α)
    (h : filterE p l = .ok m) : m = l.filter (fun x => okD (p x)) := by
  have := filterE_eq_ok p l (filterE_ok_all p l m h)
  rw [h] at this
  exact Except.ok.inj this

/-- Filters by two boolean predicates commute. -/
theorem filter_swap {α : Type} (p q : α → Bool) (l : List α) :
    (l.filter q).filter p = (l.filter p).filter q := by
  rw [List.filter_filter, List.filter_filter]
  exact List.filter_congr (fun a _ => by rw [Bool.and_comm])

/-- A successful run of the FilterSystem filter stage commutes with a
prior boolean narrowing of the working list. -/
theorem fsFilterStage_narrow (q : Rec → Bool) :
    ∀ (filters : List (Str × FilterValue)) (l m : List Rec),
      fsFilterStage filters l = .ok m →
      fsFilterStage filters (l.filter q) = .ok (m.filter q) := by
  intro filters
  induction filters with
  | nil =>
    intro l m h
    have h2 : l = m := Except.ok.inj h
    rw [← h2]
    rfl
  | cons kv rest ih =>
    intro l m h
    rw [show fsFilterStage (kv :: rest) l = (do
        let l1 ← filterE (fun item => fvMatches item kv.1 kv.2) l
        fsFilterStage rest l1) from rfl] at h
    cases h1 : filterE (fun item => fvMatches item kv.1 kv.2) l with
    | error e =>
      rw [h1] at h
      exact absurd (show (Except.error e : Except Unit (List Rec)) = Except.ok m from h) (by simp)
    | ok l1 =>
      rw [h1] at h
      have h2 : fsFilterStage rest l1 = Except.ok m := h
      have hall := filterE_ok_all _ l l1 h1
      have hnarrow : filterE (fun item => fvMatches item kv.1 kv.2) (l.filter q) =
          .ok ((l.filter q).filter (fun x => okD (fvMatches x kv.1 kv.2))) :=
        filterE_eq_ok _ _ (fun x hx => hall x (List.mem_of_mem_filter hx))
      rw [show fsFilterStage (kv :: rest) (l.filter q) = (do
          let l2 ← filterE (fun item => fvMatches item kv.1 kv.2) (l.filter q)
          fsFilterStage rest l2) from rfl]
      rw [hnarrow]
      show fsFilterStage rest ((l.filter q).filter (fun x => okD (fvMatches x kv.1 kv.2))) =
        Except.ok (m.filter q)
      rw [filter_swap _ q l]
      rw [← filterE_ok_val _ l l1 h1]
      exact ih l1 m h2

/-- Array.prototype.some over a one-element array is the callback. -/
theorem anyE_singleton {α : Type} (p : α → Except Unit Bool) (v : α) :
    anyE p [v] = p v := by
  cases h : p v with
  | ok b => cases b <;> (simp only [anyE, h]; rfl)
  | error e => simp only [anyE, h]; rfl

/-! Characterisation of the FiltersManager filter stage. -/

/-- Membership in the filter stage output: survive the original list and
every non-empty active dimension. -/
theorem mem_fmFilterStage (nowYear : Int) :
    ∀ (tf : List (Str × List Str)) (data : List Rec) (r : Rec),
      r ∈ fmFilterStage nowYear tf data ↔
        r ∈ data ∧ ∀ kv ∈ tf, kv.2 ≠ [] → fmMatchesFilter nowYear r kv.1 kv.2 = true := by
  intro tf
  induction tf with
  | nil => intro data r; simp [fmFilterStage]
  | cons kv rest ih =>
    intro data r
    rw [show fmFilterStage nowYear (kv :: rest) data =
        fmFilterStage nowYear rest
          (if kv.2 ≠ [] then data.filter (fun it => fmMatchesFilter nowYear it kv.1 kv.2) else data)
      from rfl]
    rw [ih]
    by_cases hkv : kv.2 = []
    · simp only [hkv, ne_eq, not_true_eq_false, if_false, List.mem_cons]
      constructor
      · rintro ⟨h1, h2⟩
        refine ⟨h1, ?_⟩
        intro kv2 hkv2 hne
        rcases hkv2 with rfl | hkv2
        · exact absurd hkv (by simpa using hne)
        · exact h2 kv2 hkv2 hne
      · rintro ⟨h1, h2⟩
        exact ⟨h1, fun kv2 hkv2 hne => h2 kv2 (Or.inr hkv2) hne⟩
    · rw [if_pos (by simpa using hkv)]
      simp only [List.mem_filter, List.mem_cons]
      constructor
      · rintro ⟨⟨h1, h3⟩, h2⟩
        refine ⟨h1, ?_⟩
        intro kv2 hkv2 hne
        rcases hkv2 with rfl | hkv2
        · exact h3
        · exact h2 kv2 hkv2 hne
      · rintro ⟨h1, h2⟩
        refine ⟨⟨h1, h2 kv (by simp) (by simpa using hkv)⟩, ?_⟩
        exact fun kv2 hkv2 hne => h2 kv2 (Or.inr hkv2) hne

/-! Monotonicity of one dimension's predicate in its selected set. -/

/-- Adding a value to a set keeps every containment. -/
theorem contains_mono {t v : Str} (vs : List Str) (h : vs.contains t = true) :
    (vs ++ [v]).contains t = true := by
  have hm : t ∈ vs := by simpa using h
  simp [List.mem_append, hm]

/-- Adding a value to a set keeps a guarded containment. -/
theorem optContains_mono (o : Option Str) (vs : List Str) (v : Str)
    (h : optContains o vs = true) : optContains o (vs ++ [v]) = true := by
  cases o with
  | none => simp [optContains] at h
  | some t => exact contains_mono vs h

/-- Every dimension's matcher is monotone in the selected set: a record
matching some selected value still matches after one more value is
selected. -/
theorem fmMatchesFilter_mono (nowYear : Int) (r : Rec) (k : Str) (vs : List Str) (v : Str)
    (h : fmMatchesFilter nowYear r k vs = true) :
    fmMatchesFilter nowYear r k (vs ++ [v]) = true := by
  unfold fmMatchesFilter at h ⊢
  split_ifs at h ⊢ <;>
    first
      | exact h
      | exact optContains_mono _ _ _ h
      | exact contains_mono _ h
      | (unfold fmMatchesStylesFilter at h ⊢
         rw [List.any_append]
         simp [h])
      | (unfold fmMatchesYearFilter at h ⊢
         rw [List.any_append]
         simp [h])

/-! Association-list membership lemmas. -/

/-- Entries of a set are the new entry or old entries. -/
theorem mem_setAssoc {β : Type} (k : Str) (v : β) :
    ∀ (l : List (Str × β)) (e : Str × β), e ∈ setAssoc k v l → e = (k, v) ∨ e ∈ l := by
  intro l
  induction l with
  | nil => intro e he; simpa [setAssoc] using he
  | cons kv t ih =>
    intro e he
    unfold setAssoc at he
    by_cases hk : kv.1 = k
    · rw [show (kv.1, kv.2) = kv from rfl, if_pos hk] at he
      rcases List.mem_cons.mp he with rfl | h2
      · exact Or.inl rfl
      · exact Or.inr (List.mem_cons_of_mem _ h2)
    · rw [show (kv.1, kv.2) = kv from rfl, if_neg hk] at he
      rcases List.mem_cons.mp he with rfl | h2
      · exact Or.inr (by simp)
      · rcases ih e h2 with h3 | h3
        · exact Or.inl h3
        · exact Or.inr (List.mem_cons_of_mem _ h3)

/-- Entries after a delete were entries before. -/
theorem mem_delAssoc {β : Type} (k : Str) :
    ∀ (l : List (Str × β)) (e : Str × β), e ∈ delAssoc k l → e ∈ l := by
  intro l
  induction l with
  | nil => intro e he; simp [delAssoc] at he
  | cons kv t ih =>
    intro e he
    unfold delAssoc at he
    by_cases hk : kv.1 = k
    · rw [show (kv.1, kv.2) = kv from rfl, if_pos hk] at he
      exact List.mem_cons_of_mem _ (ih e he)
    · rw [show (kv.1, kv.2) = kv from rfl, if_neg hk] at he
      rcases List.mem_cons.mp he with rfl | h2
      · simp
      · exact List.mem_cons_of_mem _ (ih e h2)

/-- A successful read is an entry. -/
theorem getAssoc_mem {β : Type} (k : Str) :
    ∀ (l : List (Str × β)) (v : β), getAssoc k l = some v → (k, v) ∈ l := by
  intro l
  induction l with
  | nil => intro v h; simp [getAssoc] at h
  | cons kv t ih =>
    intro v h
    unfold getAssoc at h
    by_cases hk : kv.1 = k
    · rw [if_pos hk] at h
      have hkv : kv = (k, v) := by
        cases kv
        simp_all
      rw [← hkv]
      simp
    · rw [if_neg hk] at h
      exact List.mem_cons_of_mem _ (ih v h)

/-! ## Reachable states of the two controllers -/

/-- States of FiltersManager.activeFilters reachable by checkbox
toggles (handleFilterChange), per-domain clears (handleClearFilters)
and the global clear (clearAllFilters). -/
inductive FMReach : FMFilters → Prop where
  | init : FMReach []
  | toggle (dt k v : Str) (isChecked : Bool) {s : FMFilters} :
      FMReach s → FMReach (fmHandleFilterChange dt k v isChecked s)
  | clearType (dt : Str) {s : FMFilters} : FMReach s → FMReach (fmClearType dt s)
  | clearAll {s : FMFilters} : FMReach s → FMReach []

/-- States of a FilterSystem reachable by its public mutators. -/
inductive FSReach : FSState → Prop where
  | init : FSReach fsInit
  | search (q : Str) {s : FSState} : FSReach s → FSReach (setSearchFS q s)
  | setF (k v : Str) {s : FSState} : FSReach s → FSReach (setFilterFS k v s)
  | toggle (k v : Str) (isActive : Bool) {s : FSState} :
      FSReach s → FSReach (toggleFilterFS k v isActive s)
  | sort (sb so : Str) {s : FSState} : FSReach s → FSReach (setSortFS sb so s)
  | reset {s : FSState} : FSReach s → FSReach (resetFiltersFS s)
  | imp (ps : List (Str × Str)) {s : FSState} : FSReach s → FSReach (importFromURL ps s)

/-- The FiltersManager state invariant: every domain entry has at least
one dimension, every dimension entry a non-empty selected set. -/
def fmInv (s : FMFilters) : Prop :=
  ∀ e ∈ s, e.2 ≠ [] ∧ ∀ d ∈ e.2, d.2 ≠ []

/-- handleFilterChange preserves the invariant. -/
theorem fmInv_toggle (dt k v : Str) (isChecked : Bool) (s : FMFilters) (h : fmInv s) :
    fmInv (fmHandleFilterChange dt k v isChecked s) := by
  unfold fmHandleFilterChange
  set tf0 := (getAssoc dt s).getD [] with htf0
  set fv1 := (if isChecked
    then (if ((getAssoc k tf0).getD []).contains v then (getAssoc k tf0).getD []
          else ((getAssoc k tf0).getD []) ++ [v])
    else ((getAssoc k tf0).getD []).filter (fun x => x ≠ v)) with hfv1
  have htf0dims : ∀ d ∈ tf0, d.2 ≠ [] := by
    rw [htf0]
    cases hg : getAssoc dt s with
    | none => simp
    | some tf =>
      simp only [Option.getD_some]
      exact (h (dt, tf) (getAssoc_mem dt s tf hg)).2
  intro e he
  by_cases h1 : (if fv1 = [] then delAssoc k tf0 else setAssoc k fv1 tf0) = []
  · rw [if_pos h1] at he
    exact h e (mem_delAssoc dt s e he)
  · rw [if_neg h1] at he
    rcases mem_setAssoc dt _ s e he with rfl | h2
    · refine ⟨h1, ?_⟩
      intro d hd
      by_cases h2 : fv1 = []
      · rw [if_pos h2] at hd
        exact htf0dims d (mem_delAssoc k tf0 d hd)
      · rw [if_neg h2] at hd
        rcases mem_setAssoc k fv1 tf0 d hd with rfl | h3
        · exact h2
        · exact htf0dims d h3
    · exact h e h2

/-- Deleting a domain preserves the invariant. -/
theorem fmInv_clearType (dt : Str) (s : FMFilters) (h : fmInv s) : fmInv (fmClearType dt s) :=
  fun e he => h e (mem_delAssoc dt s e he)

/-- The empty state satisfies the invariant. -/
theorem fmInv_nil : fmInv [] := by
  intro e he
  simp at he

/-- Every reachable FiltersManager state satisfies the invariant. -/
theorem fmInv_reach (s : FMFilters) (h : FMReach s) : fmInv s := by
  induction h with
  | init => exact fmInv_nil
  | toggle dt k v isChecked hr ih => exact fmInv_toggle dt k v isChecked _ ih
  | clearType dt hr ih => exact fmInv_clearType dt _ ih
  | clearAll hr ih => exact fmInv_nil

/-- The FilterSystem dimension invariant: no stored entry is an empty
array. -/
def fsNoEmpty (st : FSState) : Prop :=
  ∀ e ∈ st.activeFilters, e.2 ≠ FilterValue.multi []

/-- The FilterSystem duplicate-freedom invariant: every stored
multi-select array is duplicate-free. -/
def fsNodup (st : FSState) : Prop :=
  ∀ k vs, (k, FilterValue.multi vs) ∈ st.activeFilters → vs.Nodup

/-- A generic fold-preservation principle for state invariants. -/
theorem foldl_preserve {σ α : Type} (Inv : σ → Prop) (f : σ → α → σ)
    (hf : ∀ s x, Inv s → Inv (f s x)) : ∀ (l : List α) (s : σ), Inv s → Inv (List.foldl f s l) := by
  intro l
  induction l with
  | nil => intro s h; exact h
  | cons x xs ih => intro s h; exact ih (f s x) (hf s x h)

/-- setFilter preserves both FilterSystem invariants. -/
theorem fs_inv_setF (k v : Str) (st : FSState) (h1 : fsNoEmpty st) (h2 : fsNodup st) :
    fsNoEmpty (setFilterFS k v st) ∧ fsNodup (setFilterFS k v st) := by
  unfold setFilterFS
  split
  · exact ⟨fun e he => h1 e (mem_delAssoc k _ e he),
      fun k2 vs hm => h2 k2 vs (mem_delAssoc k _ _ hm)⟩
  · constructor
    · intro e he
      rcases mem_setAssoc k _ _ e he with rfl | hm
      · simp
      · exact h1 e hm
    · intro k2 vs hm
      rcases mem_setAssoc k _ _ _ hm with heq | hm2
      · simp at heq
      · exact h2 k2 vs hm2

/-- toggleFilter preserves both FilterSystem invariants. -/
theorem fs_inv_toggle (k v : Str) (isActive : Bool) (st : FSState)
    (h1 : fsNoEmpty st) (h2 : fsNodup st) :
    fsNoEmpty (toggleFilterFS k v isActive st) ∧ fsNodup (toggleFilterFS k v isActive st) := by
  have hdel : fsNoEmpty { st with activeFilters := delAssoc k st.activeFilters } ∧
      fsNodup { st with activeFilters := delAssoc k st.activeFilters } :=
    ⟨fun e he => h1 e (mem_delAssoc k _ e he),
     fun k2 vs hm => h2 k2 vs (mem_delAssoc k _ _ hm)⟩
  have hsingle : ∀ (l : List Str), l ≠ [] → l.Nodup →
      fsNoEmpty { st with activeFilters := setAssoc k (FilterValue.multi l) st.activeFilters } ∧
      fsNodup { st with activeFilters := setAssoc k (FilterValue.multi l) st.activeFilters } := by
    intro l hne hnd
    constructor
    · intro e he
      rcases mem_setAssoc k _ _ e he with rfl | hm
      · simpa using hne
      · exact h1 e hm
    · intro k2 vs hm
      rcases mem_setAssoc k _ _ _ hm with heq | hm2
      · have : vs = l := by
          have := congrArg Prod.snd heq
          simpa using this
        rw [this]
        exact hnd
      · exact h2 k2 vs hm2
  unfold toggleFilterFS
  cases hg : getAssoc k st.activeFilters with
  | none =>
    dsimp only
    cases isActive
    · exact hdel
    · exact hsingle [v] (by simp) (by simp)
  | some fv =>
    cases fv with
    | single s =>
      dsimp only
      by_cases hs : s = []
      · rw [if_pos hs]
        cases isActive
        · exact hdel
        · exact hsingle [v] (by simp) (by simp)
      · rw [if_neg hs]
        exact ⟨h1, h2⟩
    | multi l =>
      dsimp only
      have hlnd : l.Nodup := h2 k l (getAssoc_mem k _ _ hg)
      cases isActive with
      | true =>
        by_cases hc : l.contains v
        · rw [if_pos hc]
          exact ⟨h1, h2⟩
        · rw [if_neg hc]
          refine hsingle (l ++ [v]) (by simp) ?_
          have hv : v ∉ l := by simpa using hc
          simp [List.nodup_append, hlnd, hv]
      | false =>
        by_cases hl2 : l.filter (fun x => x ≠ v) = []
        · rw [if_pos hl2]
          exact hdel
        · rw [if_neg hl2]
          exact hsingle _ hl2 (hlnd.filter _)

/-- setSearch, setSort and resetFilters preserve both invariants. -/
theorem fs_inv_other (st : FSState) (h1 : fsNoEmpty st) (h2 : fsNodup st) :
    (∀ q, fsNoEmpty (setSearchFS q st) ∧ fsNodup (setSearchFS q st)) ∧
    (∀ sb so, fsNoEmpty (setSortFS sb so st) ∧ fsNodup (setSortFS sb so st)) ∧
    (fsNoEmpty (resetFiltersFS st) ∧ fsNodup (resetFiltersFS st)) := by
  refine ⟨fun q => ⟨h1, h2⟩, fun sb so => ⟨h1, h2⟩, ?_, ?_⟩
  · intro e he
    simp [resetFiltersFS] at he
  · intro k vs hm
    simp [resetFiltersFS] at hm

/-- importFromURL preserves both invariants. -/
theorem fs_inv_import (ps : List (Str × Str)) (st : FSState)
    (h1 : fsNoEmpty st) (h2 : fsNodup st) :
    fsNoEmpty (importFromURL ps st) ∧ fsNodup (importFromURL ps st) := by
  unfold importFromURL
  have step1 : ∀ st2 : FSState, fsNoEmpty st2 ∧ fsNodup st2 →
      fsNoEmpty (match usGet (lit "search") ps with
        | some s => if s ≠ [] then setSearchFS s st2 else st2
        | none => st2) ∧
      fsNodup (match usGet (lit "search") ps with
        | some s => if s ≠ [] then setSearchFS s st2 else st2
        | none => st2) := by
    intro st2 h
    cases usGet (lit "search") ps with
    | some s =>
      dsimp only
      split
      · exact ⟨(fs_inv_other st2 h.1 h.2).1 s |>.1, (fs_inv_other st2 h.1 h.2).1 s |>.2⟩
      · exact h
    | none => exact h
  have step2 : ∀ st2 : FSState, fsNoEmpty st2 ∧ fsNodup st2 →
      ∀ kv : Str × Str, fsNoEmpty ((fun st kv =>
          if kv.1 = lit "search" || kv.1 = lit "sort" then st
          else if kv.2.contains ',' then
            (splitOnChar ',' kv.2).foldl (fun s v => toggleFilterFS kv.1 v true s) st
          else setFilterFS kv.1 kv.2 st) st2 kv) ∧
        fsNodup ((fun st kv =>
          if kv.1 = lit "search" || kv.1 = lit "sort" then st
          else if kv.2.contains ',' then
            (splitOnChar ',' kv.2).foldl (fun s v => toggleFilterFS kv.1 v true s) st
          else setFilterFS kv.1 kv.2 st) st2 kv) := by
    intro st2 h kv
    dsimp only
    split
    · exact h
    · split
      · refine foldl_preserve (fun s => fsNoEmpty s ∧ fsNodup s) _ ?_ _ st2 h
        intro s x hs
        exact fs_inv_toggle kv.1 x true s hs.1 hs.2
      · exact fs_inv_setF kv.1 kv.2 st2 h.1 h.2
  have hmid := foldl_preserve (fun s => fsNoEmpty s ∧ fsNodup s) _
    (fun s x hs => step2 s hs x) ps _ (step1 st ⟨h1, h2⟩)
  cases usGet (lit "sort") ps with
  | some s =>
    dsimp only
    split
    · exact ⟨hmid.1, hmid.2⟩
    · exact hmid
  | none => exact hmid

/-- Every reachable FilterSystem state satisfies both invariants. -/
theorem fs_inv_reach (st : FSState) (h : FSReach st) : fsNoEmpty st ∧ fsNodup st := by
  induction h with
  | init =>
    constructor
    · intro e he; simp [fsInit] at he
    · intro k vs hm; simp [fsInit] at hm
  | search q hr ih => exact (fs_inv_other _ ih.1 ih.2).1 q
  | setF k v hr ih => exact fs_inv_setF k v _ ih.1 ih.2
  | toggle k v isActive hr ih => exact fs_inv_toggle k v isActive _ ih.1 ih.2
  | sort sb so hr ih => exact (fs_inv_other _ ih.1 ih.2).2.1 sb so
  | reset hr ih => exact (fs_inv_other _ ih.1 ih.2).2.2
  | imp ps hr ih => exact fs_inv_import ps _ ih.1 ih.2

/-! ## Evaluation of export and import for round-trippable states -/

/-- The states whose serialised form survives the flat URL format:
values carry no comma (the array separator), no value collapses into
the setFilter clear forms (empty or all when it would import as a
single value), no dimension shadows the reserved keys, dimension keys
are unique (JavaScript object keys always are), the search query is in
its stored normal form, and the sort pair is expressible (the export
omits the sort parameter for the default name field, so a name sort
must carry the default asc direction to survive). -/
def goodFV : FilterValue → Prop
  | .single v => v ≠ [] ∧ v ≠ lit "all" ∧ v.contains ',' = false
  | .multi l => l ≠ [] ∧ l.Nodup ∧ (∀ v ∈ l, v.contains ',' = false) ∧
      (∀ v, l = [v] → v ≠ [] ∧ v ≠ lit "all")

/-- The round-trippable states (see goodFV). -/
def goodState (st : FSState) : Prop :=
  (∀ kv ∈ st.activeFilters, kv.1 ≠ lit "search" ∧ kv.1 ≠ lit "sort" ∧ goodFV kv.2) ∧
  (st.activeFilters.map Prod.fst).Nodup ∧
  normQuery st.searchQuery = st.searchQuery ∧
  st.sortBy.contains ':' = false ∧
  (st.sortOrder = lit "asc" ∨ st.sortOrder = lit "desc") ∧
  (st.sortBy = lit "name" → st.sortOrder = lit "asc")

/-- The shape an imported dimension takes: a one-element array exports
without a comma and re-imports through setFilter as a single value;
everything else is reproduced as stored. -/
def importFV : FilterValue → FilterValue
  | .single v => .single v
  | .multi l =>
    match l with
    | [v] => .single v
    | _ => .multi l

/-- Setting an absent key appends. -/
theorem usSet_append (k v : Str) :
    ∀ (l : List (Str × Str)), (∀ e ∈ l, e.1 ≠ k) → usSet k v l = l ++ [(k, v)] := by
  intro l
  induction l with
  | nil => intro _; rfl
  | cons e t ih =>
    intro h
    unfold usSet
    rw [if_neg (h e (by simp))]
    rw [ih (fun e2 he2 => h e2 (List.mem_cons_of_mem e he2))]
    rfl

/-- Reading a key none of the entries carry gives nothing. -/
theorem usGet_none (k : Str) :
    ∀ (l : List (Str × Str)), (∀ e ∈ l, e.1 ≠ k) → usGet k l = none := by
  intro l
  induction l with
  | nil => intro _; rfl
  | cons e t ih =>
    intro h
    unfold usGet List.find?
    rw [show (decide (e.1 = k)) = false by simp [h e (List.mem_cons_self e t)]]
    exact ih (fun e2 he2 => h e2 (List.mem_cons_of_mem e he2))

/-- Reading a key concatenates: the left list is consulted first. -/
theorem usGet_append (k : Str) (xs ys : List (Str × Str)) :
    usGet k (xs ++ ys) =
      match usGet k xs with
      | some v => some v
      | none => usGet k ys := by
  unfold usGet
  rw [List.find?_append]
  cases List.find? (fun p => p.1 = k) xs with
  | none => rfl
  | some p => rfl

/-- The fold of set calls over fresh distinct keys appends them all. -/
theorem foldl_usSet (filters : List (Str × FilterValue)) :
    ∀ (p : List (Str × Str)),
      (∀ kv ∈ filters, ∀ e ∈ p, e.1 ≠ kv.1) →
      (filters.map Prod.fst).Nodup →
      filters.foldl (fun acc kv => usSet kv.1 (serializeFV kv.2) acc) p =
        p ++ filters.map (fun kv => (kv.1, serializeFV kv.2)) := by
  induction filters with
  | nil => intro p _ _; simp
  | cons kv rest ih =>
    intro p hdisj hnd
    rw [List.foldl_cons]
    rw [usSet_append kv.1 (serializeFV kv.2) p (fun e he => hdisj kv (List.mem_cons_self kv rest) e he)]
    have hnd2 : (kv.1 :: rest.map Prod.fst).Nodup := by
      rw [List.map_cons] at hnd
      exact hnd
    have hknotin : kv.1 ∉ rest.map Prod.fst := (List.nodup_cons.mp hnd2).1
    have hndrest := (List.nodup_cons.mp hnd2).2
    have hdisj2 : ∀ kv2 ∈ rest, ∀ e ∈ p ++ [(kv.1, serializeFV kv.2)], e.1 ≠ kv2.1 := by
      intro kv2 hkv2 e he
      rcases List.mem_append.mp he with h1 | h1
      · exact hdisj kv2 (List.mem_cons_of_mem kv hkv2) e h1
      · have he2 : e = (kv.1, serializeFV kv.2) := by simpa using h1
        rw [he2]
        intro hcontra
        exact hknotin (hcontra ▸ List.mem_map_of_mem Prod.fst hkv2)
    rw [ih (p ++ [(kv.1, serializeFV kv.2)]) hdisj2 hndrest]
    simp

/-- The export of a round-trippable state, explicitly. -/
theorem exportToURL_eq (st : FSState) (hg : goodState st) :
    exportToURL st =
      (if st.searchQuery ≠ [] then [(lit "search", st.searchQuery)] else []) ++
      st.activeFilters.map (fun kv => (kv.1, serializeFV kv.2)) ++
      (if st.sortBy ≠ lit "name" then [(lit "sort", st.sortBy ++ ':' :: st.sortOrder)] else []) := by
  obtain ⟨hkeys, hnd, _, _, _, _⟩ := hg
  have h1 : (if st.searchQuery ≠ [] then usSet (lit "search") st.searchQuery [] else []) =
      (if st.searchQuery ≠ [] then [(lit "search", st.searchQuery)] else []) := by
    split <;> rfl
  have hdisj : ∀ kv ∈ st.activeFilters,
      ∀ e ∈ (if st.searchQuery ≠ [] then [(lit "search", st.searchQuery)] else []), e.1 ≠ kv.1 := by
    intro kv hkv e he
    split at he
    · have he2 : e = (lit "search", st.searchQuery) := by simpa using he
      rw [he2]
      exact fun hc => (hkeys kv hkv).1 hc.symm
    · simp at he
  have hfold : st.activeFilters.foldl (fun acc kv => usSet kv.1 (serializeFV kv.2) acc)
      (if st.searchQuery ≠ [] then [(lit "search", st.searchQuery)] else []) =
      (if st.searchQuery ≠ [] then [(lit "search", st.searchQuery)] else []) ++
        st.activeFilters.map (fun kv => (kv.1, serializeFV kv.2)) :=
    foldl_usSet st.activeFilters _ hdisj hnd
  show (if st.sortBy ≠ lit "name"
      then usSet (lit "sort") (st.sortBy ++ ':' :: st.sortOrder)
        (st.activeFilters.foldl (fun acc kv => usSet kv.1 (serializeFV kv.2) acc)
          (if st.searchQuery ≠ [] then usSet (lit "search") st.searchQuery [] else []))
      else st.activeFilters.foldl (fun acc kv => usSet kv.1 (serializeFV kv.2) acc)
        (if st.searchQuery ≠ [] then usSet (lit "search") st.searchQuery [] else [])) = _
  rw [h1, hfold]
  have hdisj3 : ∀ e ∈ (if st.searchQuery ≠ [] then [(lit "search", st.searchQuery)] else []) ++
      st.activeFilters.map (fun kv => (kv.1, serializeFV kv.2)), e.1 ≠ lit "sort" := by
    intro e he
    rcases List.mem_append.mp he with h2 | h2
    · split at h2
      · have he2 : e = (lit "search", st.searchQuery) := by simpa using h2
        rw [he2]
        show lit "search" ≠ lit "sort"
        decide
      · simp at h2
    · obtain ⟨kv, hkv, hkv2⟩ := List.mem_map.mp h2
      rw [← hkv2]
      exact (hkeys kv hkv).2.1
  by_cases hb : st.sortBy = lit "name"
  · rw [if_neg (not_not_intro hb), if_neg (not_not_intro hb)]
    simp
  · rw [if_pos hb, if_pos hb]
    rw [usSet_append (lit "sort") (st.sortBy ++ ':' :: st.sortOrder) _ hdisj3]

/-- Setting an absent key appends (object semantics). -/
theorem setAssoc_append {β : Type} (k : Str) (v : β) :
    ∀ (l : List (Str × β)), (∀ e ∈ l, e.1 ≠ k) → setAssoc k v l = l ++ [(k, v)] := by
  intro l
  induction l with
  | nil => intro _; rfl
  | cons e t ih =>
    intro h
    unfold setAssoc
    rw [if_neg (h e (List.mem_cons_self e t))]
    rw [ih (fun e2 he2 => h e2 (List.mem_cons_of_mem e he2))]
    rfl

/-- Reading an absent key gives nothing. -/
theorem getAssoc_none_of {β : Type} (k : Str) :
    ∀ (l : List (Str × β)), (∀ e ∈ l, e.1 ≠ k) → getAssoc k l = none := by
  intro l
  induction l with
  | nil => intro _; rfl
  | cons e t ih =>
    intro h
    unfold getAssoc
    rw [if_neg (h e (List.mem_cons_self e t))]
    exact ih (fun e2 he2 => h e2 (List.mem_cons_of_mem e he2))

/-- Reading a key stored as the last entry. -/
theorem getAssoc_last {β : Type} (k : Str) (v : β) :
    ∀ (l : List (Str × β)), (∀ e ∈ l, e.1 ≠ k) → getAssoc k (l ++ [(k, v)]) = some v := by
  intro l
  induction l with
  | nil => simp [getAssoc]
  | cons e t ih =>
    intro h
    rw [List.cons_append]
    unfold getAssoc
    rw [if_neg (h e (List.mem_cons_self e t))]
    exact ih (fun e2 he2 => h e2 (List.mem_cons_of_mem e he2))

/-- Updating a key stored as the last entry. -/
theorem setAssoc_last {β : Type} (k : Str) (v w : β) :
    ∀ (l : List (Str × β)), (∀ e ∈ l, e.1 ≠ k) →
      setAssoc k w (l ++ [(k, v)]) = l ++ [(k, w)] := by
  intro l
  induction l with
  | nil => simp [setAssoc]
  | cons e t ih =>
    intro h
    rw [List.cons_append]
    unfold setAssoc
    rw [if_neg (h e (List.mem_cons_self e t))]
    rw [ih (fun e2 he2 => h e2 (List.mem_cons_of_mem e he2))]
    rfl

/-- Toggling the members of a fresh set in order accumulates them at
the end of the filter map. -/
theorem toggle_fold_acc (k : Str) :
    ∀ (rest acc : List Str) (st : FSState),
      (∀ e ∈ st.activeFilters, e.1 ≠ k) →
      (∀ v ∈ rest, v ∉ acc) → rest.Nodup →
      rest.foldl (fun s v => toggleFilterFS k v true s)
        { st with activeFilters := st.activeFilters ++ [(k, FilterValue.multi acc)] } =
      { st with activeFilters := st.activeFilters ++ [(k, FilterValue.multi (acc ++ rest))] } := by
  intro rest
  induction rest with
  | nil =>
    intro acc st _ _ _
    simp
  | cons v vs ih =>
    intro acc st hfresh hdisj hnd
    rw [List.foldl_cons]
    have hstep : toggleFilterFS k v true
        { st with activeFilters := st.activeFilters ++ [(k, FilterValue.multi acc)] } =
        { st with activeFilters := st.activeFilters ++ [(k, FilterValue.multi (acc ++ [v]))] } := by
      unfold toggleFilterFS
      rw [show ({ st with activeFilters := st.activeFilters ++ [(k, FilterValue.multi acc)] } : FSState).activeFilters
          = st.activeFilters ++ [(k, FilterValue.multi acc)] from rfl]
      rw [getAssoc_last k _ st.activeFilters hfresh]
      have hnc : acc.contains v = false := by
        have := hdisj v (List.mem_cons_self v vs)
        simpa using this
      dsimp only
      rw [if_pos rfl]
      have hncn : ¬ (acc.contains v = true) := by
        rw [hnc]
        decide
      rw [if_neg hncn]
      rw [setAssoc_last k _ _ st.activeFilters hfresh]
    rw [hstep]
    rw [ih (acc ++ [v]) st hfresh ?_ (List.Nodup.of_cons hnd)]
    · rw [List.append_assoc]
      rfl
    · intro u hu humem
      rcases List.mem_append.mp humem with h2 | h2
      · exact hdisj u (List.mem_cons_of_mem v hu) h2
      · have huv : u = v := by simpa using h2
        rw [huv] at hu
        exact (List.nodup_cons.mp hnd).1 hu

/-- Toggling every member of a non-empty duplicate-free value list onto
a fresh key builds exactly that array entry at the end. -/
theorem toggle_fold_fresh (k : Str) (l : List Str) (hne : l ≠ []) (hnd : l.Nodup)
    (st : FSState) (hfresh : ∀ e ∈ st.activeFilters, e.1 ≠ k) :
    l.foldl (fun s v => toggleFilterFS k v true s) st =
      { st with activeFilters := st.activeFilters ++ [(k, FilterValue.multi l)] } := by
  cases l with
  | nil => exact absurd rfl hne
  | cons v vs =>
    rw [List.foldl_cons]
    have hstep : toggleFilterFS k v true st =
        { st with activeFilters := st.activeFilters ++ [(k, FilterValue.multi [v])] } := by
      unfold toggleFilterFS
      rw [getAssoc_none_of k st.activeFilters hfresh]
      dsimp only
      rw [if_pos rfl]
      rw [setAssoc_append k _ st.activeFilters hfresh]
    rw [hstep]
    have hd2 : ∀ u ∈ vs, u ∉ ([v] : List Str) := by
      intro u hu humem
      have huv : u = v := by simpa using humem
      rw [huv] at hu
      exact (List.nodup_cons.mp hnd).1 hu
    rw [toggle_fold_acc k vs [v] st hfresh hd2 (List.Nodup.of_cons hnd)]
    rfl

/-- The import fold reconstructs exported dimensions at the end of the
filter map, collapsing one-element arrays into single values. -/
theorem import_foldl_eval (filters : List (Str × FilterValue)) :
    ∀ (st : FSState),
      (∀ kv ∈ filters, kv.1 ≠ lit "search" ∧ kv.1 ≠ lit "sort" ∧ goodFV kv.2) →
      (filters.map Prod.fst).Nodup →
      (∀ kv ∈ filters, ∀ e ∈ st.activeFilters, e.1 ≠ kv.1) →
      (filters.map (fun kv => (kv.1, serializeFV kv.2))).foldl (fun st2 kv =>
          if kv.1 = lit "search" || kv.1 = lit "sort" then st2
          else if kv.2.contains ',' then
            (splitOnChar ',' kv.2).foldl (fun s v => toggleFilterFS kv.1 v true s) st2
          else setFilterFS kv.1 kv.2 st2) st =
        { st with activeFilters :=
            st.activeFilters ++ filters.map (fun kv => (kv.1, importFV kv.2)) } := by
  induction filters with
  | nil =>
    intro st _ _ _
    simp
  | cons kv rest ih =>
    intro st hgood hnd hdisj
    rw [List.map_cons, List.foldl_cons]
    dsimp only
    obtain ⟨hk1, hk2, hfv⟩ := hgood kv (List.mem_cons_self kv rest)
    have hfreshk : ∀ e ∈ st.activeFilters, e.1 ≠ kv.1 :=
      fun e he => hdisj kv (List.mem_cons_self kv rest) e he
    have hstep : (if (decide (kv.1 = lit "search") || decide (kv.1 = lit "sort")) = true then st
        else if List.contains (serializeFV kv.2) ',' = true then
          List.foldl (fun s v => toggleFilterFS kv.1 v true s) st (splitOnChar ',' (serializeFV kv.2))
        else setFilterFS kv.1 (serializeFV kv.2) st) =
        { st with activeFilters := st.activeFilters ++ [(kv.1, importFV kv.2)] } := by
      rw [if_neg (by simp [hk1, hk2])]
      cases hfv2 : kv.2 with
      | single v =>
        obtain ⟨hv1, hv2, hv3⟩ := hfv2 ▸ hfv
        rw [show serializeFV (FilterValue.single v) = v from rfl]
        rw [if_neg (by rw [hv3]; decide)]
        unfold setFilterFS
        rw [if_neg (by simp [hv1, hv2])]
        rw [setAssoc_append kv.1 _ st.activeFilters hfreshk]
        rfl
      | multi l =>
        obtain ⟨hl1, hl2, hl3, hl4⟩ := hfv2 ▸ hfv
        match l, hl1 with
        | [v], _ =>
          obtain ⟨hv1, hv2⟩ := hl4 v rfl
          rw [show serializeFV (FilterValue.multi [v]) = v from rfl]
          have hv3 : List.contains v ',' = false := hl3 v (by simp)
          rw [if_neg (by rw [hv3]; decide)]
          unfold setFilterFS
          rw [if_neg (by simp [hv1, hv2])]
          rw [setAssoc_append kv.1 _ st.activeFilters hfreshk]
          rfl
        | v1 :: v2 :: l2, _ =>
          rw [show serializeFV (FilterValue.multi (v1 :: v2 :: l2)) =
              joinChar ',' (v1 :: v2 :: l2) from rfl]
          have hcomma : (joinChar ',' (v1 :: v2 :: l2)).contains ',' = true := by
            have := mem_joinChar_two ',' v1 v2 l2
            simpa using this
          rw [if_pos hcomma]
          have hnc : ∀ p ∈ v1 :: v2 :: l2, ',' ∉ p := by
            intro p hp
            have := hl3 p hp
            simpa using this
          rw [splitOnChar_joinChar ',' (v1 :: v2 :: l2) hnc (by simp)]
          rw [toggle_fold_fresh kv.1 (v1 :: v2 :: l2) (by simp) hl2 st hfreshk]
          rfl
    rw [hstep]
    have hnd2 : (rest.map Prod.fst).Nodup := by
      rw [List.map_cons] at hnd
      exact (List.nodup_cons.mp hnd).2
    have hknotin : kv.1 ∉ rest.map Prod.fst := by
      rw [List.map_cons] at hnd
      exact (List.nodup_cons.mp hnd).1
    have hdisj2 : ∀ kv2 ∈ rest,
        ∀ e ∈ ({ st with activeFilters :=
            st.activeFilters ++ [(kv.1, importFV kv.2)] } : FSState).activeFilters, e.1 ≠ kv2.1 := by
      intro kv2 hkv2 e he
      rcases List.mem_append.mp he with h1 | h1
      · exact hdisj kv2 (List.mem_cons_of_mem kv hkv2) e h1
      · have he2 : e = (kv.1, importFV kv.2) := by simpa using h1
        rw [he2]
        intro hc
        exact hknotin (hc ▸ List.mem_map_of_mem Prod.fst hkv2)
    rw [ih _ (fun kv2 hkv2 => hgood kv2 (List.mem_cons_of_mem kv hkv2)) hnd2 hdisj2]
    simp

/-- Importing the export of a round-trippable state into a fresh
controller reproduces the state up to the collapse of one-element
arrays into single values. -/
theorem importFromURL_export (st : FSState) (hg : goodState st) :
    importFromURL (exportToURL st) fsInit =
      { activeFilters := st.activeFilters.map (fun kv => (kv.1, importFV kv.2)),
        searchQuery := st.searchQuery, sortBy := st.sortBy, sortOrder := st.sortOrder } := by
  obtain ⟨hkeys, hnd, hq, hsb, hso, hname⟩ := hg
  rw [exportToURL_eq st ⟨hkeys, hnd, hq, hsb, hso, hname⟩]
  have hsearchP2 : ∀ e ∈ st.activeFilters.map (fun kv => (kv.1, serializeFV kv.2)),
      e.1 ≠ lit "search" := by
    intro e he
    obtain ⟨kv, hkv, hkv2⟩ := List.mem_map.mp he
    rw [← hkv2]
    exact (hkeys kv hkv).1
  have hsortP2 : ∀ e ∈ st.activeFilters.map (fun kv => (kv.1, serializeFV kv.2)),
      e.1 ≠ lit "sort" := by
    intro e he
    obtain ⟨kv, hkv, hkv2⟩ := List.mem_map.mp he
    rw [← hkv2]
    exact (hkeys kv hkv).2.1
  have hsearchP3 : ∀ e ∈ (if st.sortBy ≠ lit "name"
      then [(lit "sort", st.sortBy ++ ':' :: st.sortOrder)] else []), e.1 ≠ lit "search" := by
    intro e he
    split at he
    · have he2 : e = (lit "sort", st.sortBy ++ ':' :: st.sortOrder) := by simpa using he
      rw [he2]
      show lit "sort" ≠ lit "search"
      decide
    · simp at he
  have hget_search : usGet (lit "search")
      ((if st.searchQuery ≠ [] then [(lit "search", st.searchQuery)] else []) ++
        st.activeFilters.map (fun kv => (kv.1, serializeFV kv.2)) ++
        (if st.sortBy ≠ lit "name" then [(lit "sort", st.sortBy ++ ':' :: st.sortOrder)] else [])) =
      (if st.searchQuery ≠ [] then some st.searchQuery else none) := by
    rw [usGet_append, usGet_append]
    rw [usGet_none _ _ hsearchP2, usGet_none _ _ hsearchP3]
    by_cases hq2 : st.searchQuery = []
    · simp only [if_neg (not_not_intro hq2)]
      rfl
    · simp only [if_pos hq2]
      have h1 : usGet (lit "search") [(lit "search", st.searchQuery)] = some st.searchQuery := by
        unfold usGet List.find?
        dsimp only
        rw [show decide (lit "search" = lit "search") = true from by decide]
      rw [h1]
  have hget_sort : usGet (lit "sort")
      ((if st.searchQuery ≠ [] then [(lit "search", st.searchQuery)] else []) ++
        st.activeFilters.map (fun kv => (kv.1, serializeFV kv.2)) ++
        (if st.sortBy ≠ lit "name" then [(lit "sort", st.sortBy ++ ':' :: st.sortOrder)] else [])) =
      (if st.sortBy ≠ lit "name" then some (st.sortBy ++ ':' :: st.sortOrder) else none) := by
    have hsortP1 : ∀ e ∈ (if st.searchQuery ≠ []
        then [(lit "search", st.searchQuery)] else []), e.1 ≠ lit "sort" := by
      intro e he
      split at he
      · have he2 : e = (lit "search", st.searchQuery) := by simpa using he
        rw [he2]
        show lit "search" ≠ lit "sort"
        decide
      · simp at he
    rw [usGet_append, usGet_append]
    rw [usGet_none _ _ hsortP1, usGet_none _ _ hsortP2]
    by_cases hb : st.sortBy = lit "name"
    · simp only [if_neg (not_not_intro hb)]
      rfl
    · simp only [if_pos hb]
      have h1 : usGet (lit "sort") [(lit "sort", st.sortBy ++ ':' :: st.sortOrder)] =
          some (st.sortBy ++ ':' :: st.sortOrder) := by
        unfold usGet List.find?
        dsimp only
        rw [show decide (lit "sort" = lit "sort") = true from by decide]
      rw [h1]
  have hP2fold : ∀ (s1 : FSState), s1.activeFilters = [] →
      List.foldl (fun st2 kv =>
          if kv.1 = lit "search" || kv.1 = lit "sort" then st2
          else if kv.2.contains ',' then
            (splitOnChar ',' kv.2).foldl (fun s v => toggleFilterFS kv.1 v true s) st2
          else setFilterFS kv.1 kv.2 st2) s1
        (st.activeFilters.map (fun kv => (kv.1, serializeFV kv.2))) =
      { s1 with activeFilters := st.activeFilters.map (fun kv => (kv.1, importFV kv.2)) } := by
    intro s1 h1
    have h2 := import_foldl_eval st.activeFilters s1 hkeys hnd
      (by rw [h1]; intro kv _ e he; simp at he)
    rw [h2, h1]
    rfl
  simp only [importFromURL]
  rw [hget_search, hget_sort]
  rw [List.foldl_append, List.foldl_append]
  by_cases hq2 : st.searchQuery = []
  · simp only [if_neg (not_not_intro hq2)]
    try dsimp only
    rw [List.foldl_nil]
    rw [hP2fold fsInit rfl]
    by_cases hb : st.sortBy = lit "name"
    · simp only [if_neg (not_not_intro hb)]
      try dsimp only
      rw [List.foldl_nil]
      rw [hb, hname hb, hq2]
      rfl
    · simp only [if_pos hb]
      try dsimp only
      rw [List.foldl_cons, List.foldl_nil]
      try dsimp only
      rw [if_pos (by decide : (decide (lit "sort" = lit "search") || decide (lit "sort" = lit "sort")) = true)]
      rw [if_pos (by
        intro hc
        exact absurd (List.append_ne_nil_of_right_ne_nil st.sortBy (by simp) ) (not_not_intro hc))]
      have hsplit : splitOnChar ':' (st.sortBy ++ ':' :: st.sortOrder) = [st.sortBy, st.sortOrder] := by
        have hso2 : ':' ∉ st.sortOrder := by
          rcases hso with h | h <;> rw [h] <;> decide
        have hr : splitOnChar ':' (':' :: st.sortOrder) = [] :: [st.sortOrder] := by
          rw [splitOnChar_cons_self, splitOnChar_not_mem ':' st.sortOrder hso2]
        have hsb2 : ':' ∉ st.sortBy := by simpa using hsb
        rw [splitOnChar_append ':' st.sortBy _ hsb2 [] [st.sortOrder] hr]
        simp
      rw [hsplit]
      try dsimp only
      unfold setSortFS
      rw [hq2]
      rfl
  · simp only [if_pos hq2]
    try dsimp only
    rw [List.foldl_cons, List.foldl_nil]
    try dsimp only
    rw [if_pos (by decide : (decide (lit "search" = lit "search") || decide (lit "search" = lit "sort")) = true)]
    have hsearchval : setSearchFS st.searchQuery fsInit = { fsInit with searchQuery := st.searchQuery } := by
      unfold setSearchFS
      rw [show normQuery st.searchQuery = st.searchQuery from hq]
    rw [hsearchval]
    rw [hP2fold _ rfl]
    by_cases hb : st.sortBy = lit "name"
    · simp only [if_neg (not_not_intro hb)]
      try dsimp only
      rw [List.foldl_nil]
      rw [hb, hname hb]
      rfl
    · simp only [if_pos hb]
      try dsimp only
      rw [List.foldl_cons, List.foldl_nil]
      try dsimp only
      rw [if_pos (by decide : (decide (lit "sort" = lit "search") || decide (lit "sort" = lit "sort")) = true)]
      rw [if_pos (by
        intro hc
        exact absurd (List.append_ne_nil_of_right_ne_nil st.sortBy (by simp)) (not_not_intro hc))]
      have hsplit : splitOnChar ':' (st.sortBy ++ ':' :: st.sortOrder) = [st.sortBy, st.sortOrder] := by
        have hso2 : ':' ∉ st.sortOrder := by
          rcases hso with h | h <;> rw [h] <;> decide
        have hr : splitOnChar ':' (':' :: st.sortOrder) = [] :: [st.sortOrder] := by
          rw [splitOnChar_cons_self, splitOnChar_not_mem ':' st.sortOrder hso2]
        have hsb2 : ':' ∉ st.sortBy := by simpa using hsb
        rw [splitOnChar_append ':' st.sortBy _ hsb2 [] [st.sortOrder] hr]
        simp
      rw [hsplit]
      try dsimp only
      unfold setSortFS
      rfl

/-- Collapsing a one-element array into a single value does not change
what a dimension matches. -/
theorem fvMatches_importFV (item : Rec) (k : Str) (fv : FilterValue) :
    fvMatches item k (importFV fv) = fvMatches item k fv := by
  cases fv with
  | single v => rfl
  | multi l =>
    match l with
    | [] => rfl
    | [v] => exact (anyE_singleton (fun v2 => matchesFilterFS item k v2) v).symm
    | v1 :: v2 :: l2 => rfl

/-- The filter stage is unchanged by the import collapse. -/
theorem fsFilterStage_importFV (filters : List (Str × FilterValue)) :
    ∀ (l : List Rec),
      fsFilterStage (filters.map (fun kv => (kv.1, importFV kv.2))) l =
        fsFilterStage filters l := by
  induction filters with
  | nil => intro l; rfl
  | cons kv rest ih =>
    intro l
    rw [show fsFilterStage ((kv :: rest).map (fun kv => (kv.1, importFV kv.2))) l = (do
        let l1 ← filterE (fun item => fvMatches item kv.1 (importFV kv.2)) l
        fsFilterStage (rest.map (fun kv => (kv.1, importFV kv.2))) l1) from rfl]
    rw [show fsFilterStage (kv :: rest) l = (do
        let l1 ← filterE (fun item => fvMatches item kv.1 kv.2) l
        fsFilterStage rest l1) from rfl]
    have hp : (fun item => fvMatches item kv.1 (importFV kv.2)) =
        (fun item => fvMatches item kv.1 kv.2) :=
      funext (fun item => fvMatches_importFV item kv.1 kv.2)
    rw [hp]
    cases filterE (fun item => fvMatches item kv.1 kv.2) l with
    | error e => rfl
    | ok l1 => exact ih l1

/-- The pipeline in the stage order the specification prescribes:
filters first, then search, then sort (stated from the specification's
words for comparison with getFilteredDataFS, which searches first). -/
def specPipelineFiltersFirst (data : List Rec) (st : FSState) : Except Unit (List Rec) := do
  let afterFilters ← fsFilterStage st.activeFilters data
  let afterSearch :=
    if st.searchQuery ≠ [] then afterFilters.filter (fun it => fsSearchHit st.searchQuery it)
    else afterFilters
  applySortFS st.sortBy st.sortOrder afterSearch

/-- Whenever the filters-first composition completes without a thrown
TypeError, the implemented search-first pipeline computes the same
visible list. -/
theorem fs_pipeline_commute (data : List Rec) (st : FSState) (out : List Rec)
    (h : specPipelineFiltersFirst data st = .ok out) :
    getFilteredDataFS data st = .ok out := by
  unfold specPipelineFiltersFirst at h
  unfold getFilteredDataFS
  cases hm : fsFilterStage st.activeFilters data with
  | error e =>
    rw [hm] at h
    exact absurd (show (Except.error e : Except Unit (List Rec)) = .ok out from h) (by simp)
  | ok mid =>
    rw [hm] at h
    have h2 : applySortFS st.sortBy st.sortOrder
        (if st.searchQuery ≠ [] then mid.filter (fun it => fsSearchHit st.searchQuery it)
         else mid) = .ok out := h
    by_cases hq : st.searchQuery = []
    · simp only [if_neg (not_not_intro hq)] at h2 ⊢
      rw [hm]
      exact h2
    · simp only [if_pos hq] at h2 ⊢
      rw [fsFilterStage_narrow _ st.activeFilters data mid hm]
      exact h2

/-! ## Concrete sample records and states -/

/-- A serif font record with a price. -/
def rSerif : Rec :=
  { name := some (lit "Alpha"), typ := some (lit "serif"), category := some (lit "text"),
    styles := some 4, price := some (lit "$49") }

/-- A sans font record without a price. -/
def rSans : Rec :=
  { name := some (lit "Beta"), typ := some (lit "sans"), category := some (lit "text"),
    styles := some 12 }

/-- A record carrying no fields at all. -/
def rBare : Rec := {}

/-- A round-trippable FilterSystem state: one single-valued dimension,
a normalised search query, the default name/asc sort. -/
def stGood : FSState :=
  { fsInit with
      activeFilters := [(lit "type", FilterValue.single (lit "serif"))],
      searchQuery := lit "alp" }

/-- stGood survives the URL round trip. -/
theorem stGood_good : goodState stGood := by
  refine ⟨?_, by decide, rfl, by decide, Or.inl rfl, fun h => rfl⟩
  intro kv hkv
  have hkv2 : kv ∈ [(lit "type", FilterValue.single (lit "serif"))] := hkv
  rw [List.mem_singleton] at hkv2
  subst hkv2
  exact ⟨by decide, by decide, by decide, by decide, by decide⟩

/-- Claim C1: for round-trippable states (goodState: dimension values
free of the comma separator, one-element arrays not collapsing into the
setFilter clear forms empty/all, dimension keys distinct from the
reserved search/sort parameters, a normalised query, and an expressible
sort pair), exporting the state with exportToURL and importing the
result with importFromURL into a fresh controller yields the same
visible set over the same collection, including sort field and
direction.  Outside goodState the round trip can change the visible
set, so the unconditional claim is corrected to this guarded form. -/
theorem claim_C1_roundtrip (data : List Rec) (st : FSState) (hg : goodState st) :
    getFilteredDataFS data (importFromURL (exportToURL st) fsInit) =
      getFilteredDataFS data st := by
  rw [importFromURL_export st hg]
  unfold getFilteredDataFS
  dsimp only
  rw [fsFilterStage_importFV st.activeFilters]

/-- Claim C1, witness: the guarded round trip at a concrete state and
collection. -/
theorem claim_C1_roundtrip_witness :
    goodState stGood ∧
      getFilteredDataFS [rSerif] (importFromURL (exportToURL stGood) fsInit) =
        getFilteredDataFS [rSerif] stGood :=
  ⟨stGood_good, claim_C1_roundtrip [rSerif] stGood stGood_good⟩

/-- Claim C1, counterexample to the unconditional statement: a dimension
stored as the one-element array [all] exports comma-free, so the import
routes it through setFilter, which treats the value all as a clear; the
filter is dropped and the visible set changes from empty to the whole
collection. -/
theorem claim_C1_roundtrip_cex :
    getFilteredDataFS [rSerif]
        (importFromURL (exportToURL
          { fsInit with activeFilters := [(lit "type", FilterValue.multi [lit "all"])] })
          fsInit) ≠
      getFilteredDataFS [rSerif]
        { fsInit with activeFilters := [(lit "type", FilterValue.multi [lit "all"])] } := by
  decide

/-- Claim C2: the implemented pipeline refines the specified
filters-first composition: whenever filters-then-search-then-sort
completes without a thrown TypeError, the implementation computes
exactly that visible list.  The implementation itself applies search
before filters, so the two compositions differ precisely on inputs
where a filter matcher throws on a record the search stage would have
removed; the claimed fixed order filters before search is corrected to
this refinement. -/
theorem claim_C2_pipeline_order (data : List Rec) (st : FSState) (out : List Rec)
    (h : specPipelineFiltersFirst data st = .ok out) :
    getFilteredDataFS data st = .ok out :=
  fs_pipeline_commute data st out h

/-- Claim C2, witness: the refinement at a concrete collection and
state. -/
theorem claim_C2_pipeline_order_witness :
    specPipelineFiltersFirst [rSerif] fsInit = .ok [rSerif] ∧
      getFilteredDataFS [rSerif] fsInit = .ok [rSerif] :=
  ⟨by decide, claim_C2_pipeline_order [rSerif] fsInit [rSerif] (by decide)⟩

/-- A state with a price filter and a query nothing matches, separating
the two stage orders. -/
def stPriceSearch : FSState :=
  { fsInit with
      activeFilters := [(lit "price", FilterValue.single (lit "0-50"))],
      searchQuery := lit "zzz" }

/-- Claim C2, counterexample to the claimed stage order: on a record
with no price, filters-first throws in the price matcher, while the
implemented search-first pipeline discards the record before the
matcher runs and succeeds with the empty list. -/
theorem claim_C2_pipeline_order_cex :
    specPipelineFiltersFirst [rBare] stPriceSearch = .error () ∧
      getFilteredDataFS [rBare] stPriceSearch = .ok [] := by
  decide

/-- matchesFilter completes on every dimension whenever the price
dereference is guarded by the field being present. -/
theorem matchesFilterFS_total (item : Rec) (k v : Str)
    (hp : k = lit "price" → item.price ≠ none) :
    ∃ b, matchesFilterFS item k v = .ok b := by
  unfold matchesFilterFS
  by_cases hk : k = lit "price"
  · subst hk
    cases hpe : item.price with
    | none => exact absurd hpe (hp rfl)
    | some p =>
      rw [if_neg (by decide), if_neg (by decide), if_neg (by decide), if_neg (by decide),
        if_pos rfl]
      dsimp only
      split_ifs <;> exact ⟨_, rfl⟩
  · split_ifs <;> exact ⟨_, rfl⟩

/-- getSortValue completes on every sort field whenever the price
dereference is guarded by the field being present. -/
theorem getSortValueFS_total (item : Rec) (sb : Str)
    (hp : sb = lit "price" → item.price ≠ none) :
    ∃ u, getSortValueFS item sb = .ok u := by
  unfold getSortValueFS
  by_cases hk : sb = lit "price"
  · subst hk
    cases hpe : item.price with
    | none => exact absurd hpe (hp rfl)
    | some p =>
      rw [if_neg (by decide), if_pos rfl]
      exact ⟨_, rfl⟩
  · split_ifs <;> exact ⟨_, rfl⟩

/-- Claim C3: missing fields resolve to neutral defaults instead of
throwing in every branch except one: the price branch of both
matchesFilter and getSortValue dereferences item.price.replace without
a guard and throws a TypeError on a record with no price.  The claim is
corrected to: on any dimension or sort field other than price, and on
price when the record carries the field, matching and sort-value
extraction always complete normally. -/
theorem claim_C3_missing_field_defaults (item : Rec) (k v sb : Str)
    (hk : k = lit "price" → item.price ≠ none)
    (hs : sb = lit "price" → item.price ≠ none) :
    (∃ b, matchesFilterFS item k v = .ok b) ∧ (∃ u, getSortValueFS item sb = .ok u) :=
  ⟨matchesFilterFS_total item k v hk, getSortValueFS_total item sb hs⟩

/-- Claim C3, witness: a field-less record on a non-price dimension and
sort field, where every lookup degrades to a default. -/
theorem claim_C3_missing_field_defaults_witness :
    (∃ b, matchesFilterFS rBare (lit "type") (lit "serif") = .ok b) ∧
      (∃ u, getSortValueFS rBare (lit "name") = .ok u) :=
  claim_C3_missing_field_defaults rBare (lit "type") (lit "serif") (lit "name")
    (by decide) (by decide)

/-- Claim C3, counterexample: on a record with no price field both the
price matcher and the price sort key throw instead of defaulting. -/
theorem claim_C3_missing_field_defaults_cex :
    matchesFilterFS rBare (lit "price") (lit "0-50") = .error () ∧
      getSortValueFS rBare (lit "price") = .error () := by
  decide

/-- Claim C4: the FiltersManager style dimension uses the bucket labels
1, 2-5, 6-10 and 10+ over the normalised style count, a record matches
when any selected bucket hits, and the two middle buckets are inclusive
range checks — but the 10+ bucket is strict: it requires strictly more
than 10 styles, so a record with exactly 10 styles falls in 6-10 and
not in 10+.  (The FilterSystem engine uses the different label set 1-5,
6-10, 11+ for the same dimension.)  The claimed inclusive reading of
10+ is corrected to this strict one. -/
theorem claim_C4_style_buckets (styles : Option Int) (vs : List Str) (n : Int) :
    fmMatchesStylesFilter styles vs = vs.any (fun v => fmStyleBucket (fmCount styles) v) ∧
    fmStyleBucket n (lit "1") = decide (n = 1) ∧
    fmStyleBucket n (lit "2-5") = decide (2 ≤ n ∧ n ≤ 5) ∧
    fmStyleBucket n (lit "6-10") = decide (6 ≤ n ∧ n ≤ 10) ∧
    fmStyleBucket n (lit "10+") = decide (10 < n) := by
  refine ⟨rfl, ?_, ?_, ?_, ?_⟩
  · unfold fmStyleBucket
    rw [if_pos rfl]
  · unfold fmStyleBucket
    rw [if_neg (by decide), if_pos rfl]
    simp
  · unfold fmStyleBucket
    rw [if_neg (by decide), if_neg (by decide), if_pos rfl]
    simp
  · unfold fmStyleBucket
    rw [if_neg (by decide), if_neg (by decide), if_neg (by decide), if_pos rfl]

/-- Claim C4, counterexample to the inclusive reading: a record with
exactly 10 styles does not match the 10+ bucket; it matches 6-10. -/
theorem claim_C4_style_buckets_cex :
    fmMatchesStylesFilter (some 10) [lit "10+"] = false ∧
      fmMatchesStylesFilter (some 10) [lit "6-10"] = true := by
  decide

/-- Claim C5: with OR within a dimension and AND across dimensions,
adding one more value to a dimension's non-empty selected set is
monotone UPWARD: every record visible before the addition is still
visible after it (old output ⊆ new output), and the visible set can
strictly grow.  The claimed direction — that the new visible set is a
subset of the old — is the reverse and is corrected to this one. -/
theorem claim_C5_add_value_monotone (nowYear : Int) (pre post : List (Str × List Str))
    (k v : Str) (vs : List Str) (data : List Rec) (r : Rec) (hvs : vs ≠ [])
    (hr : r ∈ fmFilterStage nowYear (pre ++ (k, vs) :: post) data) :
    r ∈ fmFilterStage nowYear (pre ++ (k, vs ++ [v]) :: post) data := by
  rw [mem_fmFilterStage] at hr ⊢
  obtain ⟨h1, h2⟩ := hr
  refine ⟨h1, ?_⟩
  intro kv hkv hne
  rcases List.mem_append.mp hkv with hm | hm
  · exact h2 kv (List.mem_append.mpr (Or.inl hm)) hne
  · rcases List.mem_cons.mp hm with rfl | hm2
    · have hold := h2 (k, vs) (List.mem_append.mpr (Or.inr (List.mem_cons_self _ _)))
        (by simpa using hvs)
      exact fmMatchesFilter_mono nowYear r k vs v hold
    · exact h2 kv (List.mem_append.mpr (Or.inr (List.mem_cons_of_mem _ hm2))) hne

/-- Claim C5, witness: a record surviving a one-value type dimension
still survives after a second value is selected there. -/
theorem claim_C5_add_value_monotone_witness :
    ([lit "serif"] : List Str) ≠ [] ∧
      rSerif ∈ fmFilterStage 2024 [(lit "type", [lit "serif"])] [rSerif, rSans] ∧
      rSerif ∈ fmFilterStage 2024 [(lit "type", [lit "serif", lit "sans"])] [rSerif, rSans] :=
  ⟨by decide, by decide,
    claim_C5_add_value_monotone 2024 [] [] (lit "type") (lit "sans") [lit "serif"]
      [rSerif, rSans] rSerif (by decide) (by decide)⟩

/-- Claim C5, counterexample to the claimed direction: selecting the
additional value sans grows the visible set from one record to two, so
the new output is not a subset of the old. -/
theorem claim_C5_add_value_monotone_cex :
    fmFilterStage 2024 [(lit "type", [lit "serif"])] [rSerif, rSans] = [rSerif] ∧
      fmFilterStage 2024 [(lit "type", [lit "serif", lit "sans"])] [rSerif, rSans] =
        [rSerif, rSans] ∧
      rSans ∉ [rSerif] := by
  decide

/-- Claim C6: the search law of the FiltersManager search stage.  With
an empty query the stage is the identity; with a non-empty query a
record is in the output exactly when it is in the input and at least
one of its searchable fields, lowercased, contains the lowercased query
as a substring — so every excluded input record has no such field. -/
theorem claim_C6_search_law (q : Str) (l : List Rec) (r : Rec) (hq : q ≠ []) :
    fmSearchStage [] l = l ∧
    (r ∈ fmSearchStage q l ↔
      r ∈ l ∧
        (fmSearchFields r).any (fun f => containsSub (toLowerStr f) (toLowerStr q)) = true) := by
  constructor
  · unfold fmSearchStage
    rw [if_pos rfl]
  · unfold fmSearchStage
    rw [if_neg hq, List.mem_filter]
    exact Iff.rfl

/-- Claim C6, witness: the law at a concrete query and collection. -/
theorem claim_C6_search_law_witness :
    fmSearchStage [] [rSerif, rSans] = [rSerif, rSans] ∧
    (rSerif ∈ fmSearchStage (lit "alp") [rSerif, rSans] ↔
      rSerif ∈ [rSerif, rSans] ∧
        (fmSearchFields rSerif).any
          (fun f => containsSub (toLowerStr f) (toLowerStr (lit "alp"))) = true) :=
  claim_C6_search_law (lit "alp") [rSerif, rSans] rSerif (by decide)

/-- Claim C7: in every FiltersManager filter state reachable by
checkbox toggles, per-domain clears and the global clear, no domain
entry is present without dimensions, and no dimension entry is present
with an empty selected-value set. -/
theorem claim_C7_no_empty_entries (s : FMFilters) (h : FMReach s) :
    ∀ e ∈ s, e.2 ≠ [] ∧ ∀ d ∈ e.2, d.2 ≠ [] :=
  fmInv_reach s h

/-- Claim C7, witness: the domain entry created by one toggle carries
its dimension. -/
theorem claim_C7_no_empty_entries_witness :
    ([(lit "type", [lit "serif"])] : List (Str × List Str)) ≠ [] :=
  (claim_C7_no_empty_entries
      (fmHandleFilterChange (lit "typefaces") (lit "type") (lit "serif") true [])
      (FMReach.toggle (lit "typefaces") (lit "type") (lit "serif") true FMReach.init)
      (lit "typefaces", [(lit "type", [lit "serif"])]) (by decide)).1

/-- Claim C8: on a collection whose sort keys for the chosen field are
all of one kind (all strings or all numbers) — where the JavaScript
comparator is a consistent ordering — the sort stage outputs a list
ordered by the direction-adjusted comparator; a pair of records in
input order whose keys compare equal stays in that order (stability);
and when the comparator has no ties, flipping the direction from asc to
desc reverses the output exactly. -/
theorem claim_C8_sort_order (c : SortCriteria) (f : Str) (l : List Rec) (a b : Rec)
    (h : homKeys c.field l) (hf : homKeys f l)
    (hs : [a, b].Sublist l) (hcmp : fmCompare c.field a b = 0)
    (hnt : ∀ x ∈ l, ∀ y ∈ l, fmCompare f x y = 0 → x = y) :
    (fmSortStage c l).Pairwise (fun x y => fmLeB c x y = true) ∧
    [a, b].Sublist (fmSortStage c l) ∧
    fmSortStage ⟨f, lit "desc"⟩ l = (fmSortStage ⟨f, lit "asc"⟩ l).reverse :=
  ⟨fmSortStage_sorted c l h, fmSortStage_stable c l h a b hs hcmp, fmSortStage_rev f l hf hnt⟩

/-- Claim C8, witness: a two-record collection with tied category keys
and untied name keys. -/
theorem claim_C8_sort_order_witness :
    (fmSortStage ⟨lit "category", lit "asc"⟩ [rSerif, rSans]).Pairwise
      (fun x y => fmLeB ⟨lit "category", lit "asc"⟩ x y = true) ∧
    [rSerif, rSans].Sublist (fmSortStage ⟨lit "category", lit "asc"⟩ [rSerif, rSans]) ∧
    fmSortStage ⟨lit "name", lit "desc"⟩ [rSerif, rSans] =
      (fmSortStage ⟨lit "name", lit "asc"⟩ [rSerif, rSans]).reverse :=
  claim_C8_sort_order ⟨lit "category", lit "asc"⟩ (lit "name") [rSerif, rSans] rSerif rSans
    (Or.inl (by decide)) (Or.inl (by decide)) (by decide) (by decide) (by decide)

/-- Claim C9: data loading always resolves, never rejects: outside the
cache, a failed fetch-and-parse resolves to the per-file empty fallback
structure, the fallback carries the empty record list for each of the
three domains, and the second loader's typefaces path falls back to an
empty font list on any load error. -/
theorem claim_C9_load_resolves (cache : List (Str × DataFile)) (filename msg : Str)
    (hc : getAssoc filename cache = none) :
    loadData cache filename (.error msg) = (getEmptyStructure filename, cache) ∧
    recordsFor (lit "typefaces") (getEmptyStructure (lit "typefaces")) = [] ∧
    recordsFor (lit "projects") (getEmptyStructure (lit "projects")) = [] ∧
    recordsFor (lit "lettering") (getEmptyStructure (lit "lettering")) = [] ∧
    loadTypefaces (.error msg) = .typefacesData [] := by
  refine ⟨?_, by decide, by decide, by decide, rfl⟩
  unfold loadData
  rw [hc]

/-- Claim C9, witness: a failed typefaces load on an empty cache. -/
theorem claim_C9_load_resolves_witness :
    loadData [] (lit "typefaces") (.error (lit "boom")) =
        (getEmptyStructure (lit "typefaces"), []) ∧
    recordsFor (lit "typefaces") (getEmptyStructure (lit "typefaces")) = [] ∧
    recordsFor (lit "projects") (getEmptyStructure (lit "projects")) = [] ∧
    recordsFor (lit "lettering") (getEmptyStructure (lit "lettering")) = [] ∧
    loadTypefaces (.error (lit "boom")) = .typefacesData [] :=
  claim_C9_load_resolves [] (lit "typefaces") (lit "boom") rfl

/-- Claim C10: every FilterSystem state reachable by its mutators
(setSearch, setFilter, toggleFilter, setSort, resetFilters,
importFromURL) stores each multi-select dimension as a duplicate-free,
non-empty array — so toggling a value on repeatedly stores it at most
once and one toggle off removes it completely. -/
theorem claim_C10_multi_nodup (st : FSState) (h : FSReach st) :
    ∀ k vs, (k, FilterValue.multi vs) ∈ st.activeFilters → vs.Nodup ∧ vs ≠ [] := by
  intro k vs hm
  obtain ⟨h1, h2⟩ := fs_inv_reach st h
  exact ⟨h2 k vs hm, fun he => h1 (k, FilterValue.multi vs) hm (by simp [he])⟩

/-- Claim C10, witness: the dimension created by one toggle is stored
duplicate-free and non-empty. -/
theorem claim_C10_multi_nodup_witness :
    ([lit "serif"] : List Str).Nodup ∧ ([lit "serif"] : List Str) ≠ [] :=
  claim_C10_multi_nodup (toggleFilterFS (lit "type") (lit "serif") true fsInit)
    (FSReach.toggle (lit "type") (lit "serif") true FSReach.init)
    (lit "type") [lit "serif"] (by decide)
